import Mathlib

/-! # Upload service: streaming hash, spool, upload, JSON descriptor

A shallow embedding of `apps/upload-service` (packages `handler`,
`modules/handler` and `modules/s3`) together with the parts of the Go
standard library its handler runs through: `crypto/sha256`, `encoding/hex`,
`io` (`LimitReader`, `MultiWriter`, `CopyBuffer`), `os` (temporary files),
`path/filepath` (Unix rules) and `net/http` (response writer, `http.Error`).

Conventions
* a Go `[]byte` is a `List UInt8`, a Go `string` a `String`;
* `uint32` and `uint64` values are `Nat` with an explicit reduction modulo
  `2 ^ 32` or `2 ^ 64`, `int64` values are `Int`;
* a Go method that mutates its receiver returns the new receiver;
* the outside world (temp directory, random names, identifier generator,
  object store, device faults) is an explicit `World` value threaded through
  the handler.
-/

/-! ## Go error values -/

/-- Go `error` values that the handler can meet. The three named ones are the
sentinel values of package `io`. -/
inductive Err where
  | EOF
  | ErrShortWrite
  | errInvalidWrite
  | other (msg : String)
deriving DecidableEq, Repr

/-- Method `Error()` of an error value. -/
def Err.Error : Err → String
  | .EOF => "EOF"
  | .ErrShortWrite => "short write"
  | .errInvalidWrite => "invalid write result"
  | .other msg => msg

/-! ## crypto/sha256 -/

namespace sha256

def chunk : Nat := 64

def _K : List Nat := [
  0x428A2F98, 0x71374491, 0xB5C0FBCF, 0xE9B5DBA5, 0x3956C25B, 0x59F111F1, 0x923F82A4, 0xAB1C5ED5,
  0xD807AA98, 0x12835B01, 0x243185BE, 0x550C7DC3, 0x72BE5D74, 0x80DEB1FE, 0x9BDC06A7, 0xC19BF174,
  0xE49B69C1, 0xEFBE4786, 0x0FC19DC6, 0x240CA1CC, 0x2DE92C6F, 0x4A7484AA, 0x5CB0A9DC, 0x76F988DA,
  0x983E5152, 0xA831C66D, 0xB00327C8, 0xBF597FC7, 0xC6E00BF3, 0xD5A79147, 0x06CA6351, 0x14292967,
  0x27B70A85, 0x2E1B2138, 0x4D2C6DFC, 0x53380D13, 0x650A7354, 0x766A0ABB, 0x81C2C92E, 0x92722C85,
  0xA2BFE8A1, 0xA81A664B, 0xC24B8B70, 0xC76C51A3, 0xD192E819, 0xD6990624, 0xF40E3585, 0x106AA070,
  0x19A4C116, 0x1E376C08, 0x2748774C, 0x34B0BCB5, 0x391C0CB3, 0x4ED8AA4A, 0x5B9CCA4F, 0x682E6FF3,
  0x748F82EE, 0x78A5636F, 0x84C87814, 0x8CC70208, 0x90BEFFFA, 0xA4506CEB, 0xBEF9A3F7, 0xC67178F2]

/-- Sum of two `uint32` values. -/
def add32 (x y : Nat) : Nat := (x + y) % 2 ^ 32

/-- The call `bits.RotateLeft32(x, -k)` for `0 < k < 32`: rotation to the right by `k`. -/
def rotr (x k : Nat) : Nat := ((x >>> k) ||| (x <<< (32 - k))) % 2 ^ 32

/-- Bitwise complement `^x` of a `uint32`. -/
def not32 (x : Nat) : Nat := x ^^^ 0xffffffff

/-- The eight chaining words `h[0..7]` (also the working variables `a..h`). -/
structure Regs where
  a : Nat
  b : Nat
  c : Nat
  d : Nat
  e : Nat
  f : Nat
  g : Nat
  h : Nat
deriving DecidableEq, Repr

/-- Initial chaining value `init0 .. init7`. -/
def init : Regs :=
  ⟨0x6A09E667, 0xBB67AE85, 0x3C6EF372, 0xA54FF53A, 0x510E527F, 0x9B05688C, 0x1F83D9AB, 0x5BE0CD19⟩

/-- Loop `for i := 0; i < 16; i++` of `blockGeneric`: the big-endian words of a block. -/
def load (p : List UInt8) : List Nat :=
  (List.range 16).map fun i =>
    let j := i * 4
    ((p.getD j 0).toNat <<< 24) ||| ((p.getD (j + 1) 0).toNat <<< 16) |||
      ((p.getD (j + 2) 0).toNat <<< 8) ||| (p.getD (j + 3) 0).toNat

/-- Loop `for i := 16; i < 64; i++` of `blockGeneric`: the rest of the schedule. -/
def extend (w : List Nat) : List Nat :=
  (List.range 48).foldl (fun w k =>
    let i := k + 16
    let v1 := w.getD (i - 2) 0
    let t1 := rotr v1 17 ^^^ rotr v1 19 ^^^ (v1 >>> 10)
    let v2 := w.getD (i - 15) 0
    let t2 := rotr v2 7 ^^^ rotr v2 18 ^^^ (v2 >>> 3)
    w ++ [add32 (add32 (add32 t1 (w.getD (i - 7) 0)) t2) (w.getD (i - 16) 0)]) w

/-- Body of the loop `for i := 0; i < 64; i++` of `blockGeneric`. -/
def round (w : List Nat) (s : Regs) (i : Nat) : Regs :=
  let t1 := add32 (add32 (add32 (add32 s.h (rotr s.e 6 ^^^ rotr s.e 11 ^^^ rotr s.e 25))
    ((s.e &&& s.f) ^^^ (not32 s.e &&& s.g))) (_K.getD i 0)) (w.getD i 0)
  let t2 := add32 (rotr s.a 2 ^^^ rotr s.a 13 ^^^ rotr s.a 22)
    ((s.a &&& s.b) ^^^ (s.a &&& s.c) ^^^ (s.b &&& s.c))
  ⟨add32 t1 t2, s.a, s.b, s.c, add32 s.d t1, s.e, s.f, s.g⟩

/-- One pass of the outer loop of `blockGeneric` over the 64-byte block `p`. -/
def compress (h : Regs) (p : List UInt8) : Regs :=
  let w := extend (load p)
  let s := (List.range 64).foldl (round w) h
  ⟨add32 h.a s.a, add32 h.b s.b, add32 h.c s.c, add32 h.d s.d,
   add32 h.e s.e, add32 h.f s.f, add32 h.g s.g, add32 h.h s.h⟩

/-- Outer loop `for len(p) >= chunk` of `blockGeneric`; the first argument
counts the passes still allowed. -/
def blockLoop : Nat → Regs → List UInt8 → Regs
  | 0, h, _ => h
  | n + 1, h, p =>
    if chunk ≤ p.length then blockLoop n (compress h (p.take chunk)) (p.drop chunk) else h

/-- Function `block(dig, p)`: the loop runs `len(p) / chunk` times. -/
def block (h : Regs) (p : List UInt8) : Regs := blockLoop (p.length / chunk) h p

/-- The running hash `digest`: chaining value `h`, the buffered bytes
`x[:nx]` (so `nx` is the length of `x`) and the byte count `len`. -/
structure digest where
  h : Regs
  x : List UInt8
  len : Nat
deriving DecidableEq, Repr

/-- Constructor `sha256.New()` (that is, `Reset` on a zero digest). -/
def New : digest := ⟨init, [], 0⟩

/-- Method `(*digest).Write`; it never fails and always takes all of `p`. -/
def digest.Write (d : digest) (p : List UInt8) : digest :=
  let d1 : digest := { d with len := (d.len + p.length) % 2 ^ 64 }
  -- if d.nx > 0
  let s1 : digest × List UInt8 :=
    if 0 < d1.x.length then
      let n := min (chunk - d1.x.length) p.length
      let x := d1.x ++ p.take n
      (if x.length = chunk then { d1 with h := block d1.h x, x := [] } else { d1 with x := x },
        p.drop n)
    else (d1, p)
  -- if len(p) >= chunk
  let s2 : digest × List UInt8 :=
    if chunk ≤ s1.2.length then
      let n := s1.2.length - s1.2.length % chunk
      ({ s1.1 with h := block s1.1.h (s1.2.take n) }, s1.2.drop n)
    else s1
  -- if len(p) > 0
  if 0 < s2.2.length then { s2.1 with x := s2.2 } else s2.1

/-- The call `binary.BigEndian.PutUint64`. -/
def putUint64 (v : Nat) : List UInt8 :=
  [UInt8.ofNat (v >>> 56), UInt8.ofNat (v >>> 48), UInt8.ofNat (v >>> 40), UInt8.ofNat (v >>> 32),
   UInt8.ofNat (v >>> 24), UInt8.ofNat (v >>> 16), UInt8.ofNat (v >>> 8), UInt8.ofNat v]

/-- The call `binary.BigEndian.PutUint32`. -/
def putUint32 (v : Nat) : List UInt8 :=
  [UInt8.ofNat (v >>> 24), UInt8.ofNat (v >>> 16), UInt8.ofNat (v >>> 8), UInt8.ofNat v]

/-- The padding block(s) `tmp[:t+8]` that `checkSum` writes for a byte count `len`. -/
def padding (len : Nat) : List UInt8 :=
  let tmp : List UInt8 := 0x80 :: List.replicate 71 0
  let t := if len % 64 < 56 then 56 - len % 64 else 64 + 56 - len % 64
  tmp.take t ++ putUint64 ((len <<< 3) % 2 ^ 64)

/-- Method `(*digest).checkSum`. Its `panic("d.nx != 0")` cannot fire (lemma
`checkSum_buffer_empty` below), so the raw digest is returned directly. -/
def digest.checkSum (d : digest) : List UInt8 :=
  let d1 := d.Write (padding d.len)
  putUint32 d1.h.a ++ putUint32 d1.h.b ++ putUint32 d1.h.c ++ putUint32 d1.h.d ++
    putUint32 d1.h.e ++ putUint32 d1.h.f ++ putUint32 d1.h.g ++ putUint32 d1.h.h

/-- Method `(*digest).Sum(nil)`: it works on a copy of the digest. -/
def digest.Sum (d : digest) (b : List UInt8) : List UInt8 := b ++ d.checkSum

/-- Function `sha256.Sum256`: the digest computed directly over `data`. -/
def Sum256 (data : List UInt8) : List UInt8 := (New.Write data).checkSum

end sha256

/-! ## encoding/hex -/

namespace hex

def hextable : String := "0123456789abcdef"

/-- Function `hex.EncodeToString`. -/
def EncodeToString (src : List UInt8) : String :=
  String.mk (src.flatMap fun v =>
    [hextable.data.getD (v.toNat >>> 4) '0', hextable.data.getD (v.toNat &&& 0x0f) '0'])

end hex

/-! ## io: readers -/

namespace io

/-- How the transport answers one call of `Read` on the request body:
`data n eof` hands over at most `n` bytes (fewer when the caller's slice or
the stream is shorter) and, when `eof` is set and the stream ends with them,
reports `io.EOF` in the same call; `fail msg` hands over nothing and reports
an error other than `io.EOF`. -/
inductive ReadStep where
  | data (n : Nat) (eof : Bool)
  | fail (msg : String)
deriving DecidableEq, Repr

/-- The request body as an `io.ReadCloser`: the bytes not yet handed over and
the answers to the coming `Read` calls. Once the script is used up every
`Read` fills the caller's slice as far as the stream goes, and reports
`io.EOF` when nothing is left. -/
structure ReadCloser where
  rest : List UInt8
  script : List ReadStep
  closed : Bool
deriving DecidableEq, Repr

/-- Method `Read(p)` with `len(p) = cap`: the bytes stored in `p[:n]` and the error. -/
def ReadCloser.Read (b : ReadCloser) (cap : Nat) : (List UInt8 × Option Err) × ReadCloser :=
  match b.script with
  | [] =>
    if b.rest.isEmpty then (([], some Err.EOF), b)
    else ((b.rest.take cap, none), { b with rest := b.rest.drop cap })
  | .data n eof :: s =>
    let k := min n cap
    ((b.rest.take k, if eof && (b.rest.drop k).isEmpty then some Err.EOF else none),
      { b with rest := b.rest.drop k, script := s })
  | .fail msg :: s => (([], some (Err.other msg)), { b with script := s })

/-- Method `Close()`. -/
def ReadCloser.Close (b : ReadCloser) : ReadCloser := { b with closed := true }

/-- Type `io.LimitedReader`: underlying reader `R`, bytes remaining `N`. -/
structure LimitedReader where
  R : ReadCloser
  N : Int
deriving DecidableEq, Repr

/-- Function `io.LimitReader`. -/
def LimitReader (r : ReadCloser) (n : Int) : LimitedReader := ⟨r, n⟩

/-- Method `(*LimitedReader).Read(p)` with `len(p) = cap`. -/
def LimitedReader.Read (l : LimitedReader) (cap : Nat) :
    (List UInt8 × Option Err) × LimitedReader :=
  if l.N ≤ 0 then (([], some Err.EOF), l)
  else
    -- if int64(len(p)) > l.N { p = p[0:l.N] }
    let cap1 := if (cap : Int) > l.N then l.N.toNat else cap
    let r := l.R.Read cap1
    (r.1, { R := r.2, N := l.N - (r.1.1.length : Int) })

def SeekStart : Nat := 0

def SeekCurrent : Nat := 1

def SeekEnd : Nat := 2

end io

/-! ## os: files -/

namespace os

/-- An open `*os.File`: path, content, offset, and how the device behaves:
`space` is the number of bytes it still accepts (`none`: no limit),
`syncErr` and `seekErr` the errors of `Sync` and `Seek` if they fail. -/
structure File where
  name : String
  data : List UInt8
  pos : Nat
  space : Option Nat
  syncErr : Option String
  seekErr : Option String
deriving DecidableEq, Repr

/-- Method `Name()`. -/
def File.Name (f : File) : String := f.name

/-- The content `data` after the bytes `q` are stored at offset `pos`: they
replace what was there, after a gap of zero bytes when `pos` lies beyond the
end; storing nothing changes nothing. -/
def overwrite (data : List UInt8) (pos : Nat) (q : List UInt8) : List UInt8 :=
  if q = [] then data
  else data.take pos ++ List.replicate (pos - data.length) 0 ++ q ++ data.drop (pos + q.length)

/-- Method `Write(p)`: stores `p` at the current offset; on a full device only
the part that fits is stored and an error is returned with the short count. -/
def File.Write (f : File) (p : List UInt8) : (Nat × Option Err) × File :=
  let k := match f.space with
    | none => p.length
    | some s => min s p.length
  ((k, if k < p.length then some (Err.other "no space left on device") else none),
    { f with
      data := overwrite f.data f.pos (p.take k)
      pos := f.pos + k
      space := f.space.map (· - k) })

/-- Method `Sync()`. -/
def File.Sync (f : File) : Option Err × File :=
  match f.syncErr with
  | some msg => (some (Err.other msg), f)
  | none => (none, f)

/-- Method `Seek(offset, whence)`: the new offset and the error. -/
def File.Seek (f : File) (offset : Int) (whence : Nat) : (Int × Option Err) × File :=
  match f.seekErr with
  | some msg => ((0, some (Err.other msg)), f)
  | none =>
    let base : Int :=
      if whence = io.SeekStart then 0
      else if whence = io.SeekCurrent then f.pos
      else f.data.length
    if base + offset < 0 then ((0, some (Err.other "invalid argument")), f)
    else ((base + offset, none), { f with pos := (base + offset).toNat })

end os

/-! ## io: MultiWriter and CopyBuffer -/

namespace io

/-- Type `io.multiWriter` over the two writers the handler gives it, in
order: the temporary file, then the hash. -/
structure multiWriter where
  tmp : os.File
  hasher : sha256.digest
deriving DecidableEq, Repr

/-- Function `io.MultiWriter(tmp, hasher)`. -/
def MultiWriter (tmp : os.File) (hasher : sha256.digest) : multiWriter := ⟨tmp, hasher⟩

/-- Method `(*multiWriter).Write`: each writer in turn, stopping at the first
error or short write. -/
def multiWriter.Write (t : multiWriter) (p : List UInt8) : (Nat × Option Err) × multiWriter :=
  let r := t.tmp.Write p
  match r.1.2 with
  | some err => ((r.1.1, some err), { t with tmp := r.2 })
  | none =>
    if r.1.1 ≠ p.length then ((r.1.1, some Err.ErrShortWrite), { t with tmp := r.2 })
    else ((p.length, none), { tmp := r.2, hasher := t.hasher.Write p })

/-- What `io.CopyBuffer` returns, and the reader and writer as it leaves them. -/
structure CopyOut where
  written : Int
  err : Option Err
  src : LimitedReader
  dst : multiWriter
deriving DecidableEq, Repr

/-- Block `if nr > 0 { ... }` of the loop of `copyBuffer`, for `buf[0:nr] = bs`:
the new value of `written`, the error that breaks the loop if any, the writer. -/
def copyWrite (dst : multiWriter) (bs : List UInt8) (written : Int) :
    (Int × Option Err) × multiWriter :=
  let r := dst.Write bs
  -- if nw < 0 || nr < nw { nw = 0; if ew == nil { ew = errInvalidWrite } }
  let nw : Nat := if bs.length < r.1.1 then 0 else r.1.1
  let ew : Option Err :=
    if bs.length < r.1.1 ∧ r.1.2 = none then some Err.errInvalidWrite else r.1.2
  match ew with
  | some e => ((written + (nw : Int), some e), r.2)
  | none =>
    if bs.length ≠ nw then ((written + (nw : Int), some Err.ErrShortWrite), r.2)
    else ((written + (nw : Int), none), r.2)

/-- Loop `for { ... }` of `copyBuffer` with a buffer of `buf` bytes; the first
argument counts the passes still allowed, and `none` means they ran out. -/
def copyLoop (buf : Nat) : Nat → LimitedReader → multiWriter → Int → Option CopyOut
  | 0, _, _, _ => none
  | fuel + 1, src, dst, written =>
    let r := src.Read buf
    let w := if 0 < r.1.1.length then copyWrite dst r.1.1 written else ((written, none), dst)
    match w.1.2 with
    | some e => some ⟨w.1.1, some e, r.2, w.2⟩
    | none =>
      match r.1.2 with
      | some er => some ⟨w.1.1, if er ≠ Err.EOF then some er else none, r.2, w.2⟩
      | none => copyLoop buf fuel r.2 w.2 w.1.1

/-- Function `io.CopyBuffer(dst, src, buf)` with `len(buf) = buf`. Neither
`WriterTo` nor `ReaderFrom` is implemented by these two types, so the buffer
loop runs. Every pass that does not leave the loop uses up a script step or
at least one byte of the stream, which bounds the passes (lemma
`copyLoop_isSome`). -/
def CopyBuffer (dst : multiWriter) (src : LimitedReader) (buf : Nat) : CopyOut :=
  (copyLoop buf (src.R.script.length + src.R.rest.length + 1) src dst 0).getD ⟨0, none, src, dst⟩

end io

/-! ## The outside world -/

namespace s3

/-- Type `s3.PutObjectInput`, with the body as the bytes the uploader reads from it. -/
structure PutObjectInput where
  Bucket : String
  Key : String
  Body : List UInt8
deriving DecidableEq, Repr

end s3

/-- Everything outside the process that the handler touches.
* `tempDir`, `files`: the directory `os.TempDir()` and the paths of the files in it;
* `rand`, `randPos`: the results of the successive calls of `nextRandom()` in `os.CreateTemp`;
* `openErr`: the error with which creating a file in the temp directory fails, if it does;
* `space`, `syncErr`, `seekErr`: the device behaviour handed to each file created;
* `uuid`, `uuidPos`: the results of the successive calls of `uuid.NewString()`;
* `store`: the answer of the object store to a `PutObject` sent through the upload
  manager, a location or an error (a timeout or a cancelled context is one such error);
* `puts`: the calls of the upload manager so far. -/
structure World where
  tempDir : String
  files : List String
  rand : Nat → String
  randPos : Nat
  openErr : Option String
  space : Option Nat
  syncErr : Option String
  seekErr : Option String
  uuid : Nat → String
  uuidPos : Nat
  store : s3.PutObjectInput → Except String String
  puts : List s3.PutObjectInput

namespace os

/-- Function `prefixAndSuffix` of `os.CreateTemp`: the pattern split at its last `*`. -/
def patternParts (pattern : String) : String × String :=
  if '*' ∈ pattern.data then
    (String.mk (pattern.data.reverse.dropWhile (· ≠ '*')).tail.reverse,
      String.mk (pattern.data.reverse.takeWhile (· ≠ '*')).reverse)
  else (pattern, "")

/-- Loop of `os.CreateTemp`: draw a name, create the file with `O_CREATE|O_EXCL`,
draw again while the name exists; the first argument is `10000 - try`. -/
def createTempLoop (pfx sfx : String) : Nat → World → Except Err File × World
  | 0, σ => (.error (Err.other "createtemp: file exists"), σ)
  | n + 1, σ =>
    let name := pfx ++ σ.rand σ.randPos ++ sfx
    let σ1 := { σ with randPos := σ.randPos + 1 }
    if name ∈ σ1.files then
      -- if try++; try < 10000 { continue }
      createTempLoop pfx sfx n σ1
    else
      match σ1.openErr with
      | some msg => (.error (Err.other msg), σ1)
      | none =>
        (.ok ⟨name, [], 0, σ1.space, σ1.syncErr, σ1.seekErr⟩,
          { σ1 with files := σ1.files ++ [name] })

/-- Function `os.CreateTemp(dir, pattern)` for `dir = ""`, the default temp directory. -/
def CreateTemp (pattern : String) (σ : World) : Except Err File × World :=
  let parts := patternParts pattern
  createTempLoop (σ.tempDir ++ "/" ++ parts.1) parts.2 10000 σ

/-- Function `os.Remove(name)`: unlinks the path; an open file keeps its content. -/
def Remove (name : String) (σ : World) : Option Err × World :=
  if name ∈ σ.files then (none, { σ with files := σ.files.erase name })
  else (some (Err.other "no such file or directory"), σ)

end os

/-! ## path/filepath (Unix) -/

namespace filepath

def Separator : Char := '/'

/-- Function `filepath.Base`: the last element of the path, after trailing
slashes are stripped; `.` for the empty path, `/` for a path of slashes. -/
def Base (path : String) : String :=
  if path = "" then "."
  else
    -- Strip trailing slashes.
    let p1 := (path.data.reverse.dropWhile (· = Separator)).reverse
    -- Find the last element.
    let p2 := (p1.reverse.takeWhile (· ≠ Separator)).reverse
    -- If empty now, it had only slashes.
    if p2 = [] then String.mk [Separator] else String.mk p2

/-- Backtracking of `Clean` on a `..` element: `out.w--`, then the loop
`for out.w > dotdot && !os.IsPathSeparator(out.index(out.w)) { out.w-- }`;
`out` is the buffer `buf[:w]`, the second argument the character at `buf[w]`. -/
def backtrack (dotdot : Nat) : List Char → Char → List Char
  | [], _ => []
  | c :: rev, last =>
    if dotdot < (c :: rev).length ∧ last ≠ Separator then backtrack dotdot rev c else c :: rev

/-- Main loop `for r < n` of `filepath.Clean`; `p` is `path[r:]`, `out` the
buffer written so far, the first argument bounds the passes. -/
def cleanLoop (rooted : Bool) : Nat → List Char → List Char → Nat → List Char
  | 0, _, out, _ => out
  | fuel + 1, p, out, dotdot =>
    match p with
    | [] => out
    | c :: rest =>
      if c = Separator then
        -- empty path element
        cleanLoop rooted fuel rest out dotdot
      else if c = '.' ∧ (rest = [] ∨ rest.head? = some Separator) then
        -- . element
        cleanLoop rooted fuel rest out dotdot
      else if c = '.' ∧ rest.head? = some '.' ∧
          (rest.tail = [] ∨ rest.tail.head? = some Separator) then
        -- .. element: remove to last separator
        if dotdot < out.length then
          -- can backtrack
          cleanLoop rooted fuel rest.tail
            (backtrack dotdot out.dropLast.reverse (out.getLastD ' ')).reverse dotdot
        else if !rooted then
          -- cannot backtrack, but not rooted, so append .. element.
          let out1 := (if 0 < out.length then out ++ [Separator] else out) ++ ['.', '.']
          cleanLoop rooted fuel rest.tail out1 out1.length
        else cleanLoop rooted fuel rest.tail out dotdot
      else
        -- real path element: add slash if needed, copy element
        let out1 :=
          if (rooted ∧ out.length ≠ 1) ∨ (!rooted ∧ out.length ≠ 0) then out ++ [Separator]
          else out
        cleanLoop rooted fuel (p.dropWhile (· ≠ Separator))
          (out1 ++ p.takeWhile (· ≠ Separator)) dotdot

/-- Function `filepath.Clean`. -/
def Clean (path : String) : String :=
  if path = "" then "."
  else
    let rooted := decide (path.data.head? = some Separator)
    let out := cleanLoop rooted path.length (if rooted then path.data.tail else path.data)
      (if rooted then [Separator] else []) (if rooted then 1 else 0)
    -- Turn empty string into "."
    if out = [] then "." else String.mk out

/-- Function `filepath.Join`: the elements from the first non-empty one on,
joined by the separator, then cleaned; empty when all are empty. -/
def Join (elems : List String) : String :=
  match elems.dropWhile (· = "") with
  | [] => ""
  | e :: es => Clean (String.intercalate (String.mk [Separator]) (e :: es))

end filepath

/-! ## github.com/google/uuid and the S3 upload manager -/

namespace uuid

/-- Function `uuid.NewString()`: the next identifier of the generator. -/
def NewString (σ : World) : String × World :=
  (σ.uuid σ.uuidPos, { σ with uuidPos := σ.uuidPos + 1 })

end uuid

namespace manager

/-- Type `manager.UploadOutput`, of which only the location is used. -/
structure UploadOutput where
  Location : String
deriving DecidableEq, Repr

/-- Method `(*manager.Uploader).Upload(ctx, input)` for a body that is the
file `body`: the manager reads the file from its current offset to its end,
sends it to the store, and returns the store's answer. -/
def Upload (bucket key : String) (body : os.File) (σ : World) :
    Except Err UploadOutput × World :=
  let input : s3.PutObjectInput := ⟨bucket, key, body.data.drop body.pos⟩
  let σ1 := { σ with puts := σ.puts ++ [input] }
  match σ.store input with
  | .error msg => (.error (Err.other msg), σ1)
  | .ok loc => (.ok ⟨loc⟩, σ1)

end manager

/-! ## encoding/json and net/http -/

namespace json

/-- The two kinds of value the handler puts into its response map. -/
inductive Value where
  | str (s : String)
  | num (n : Int)
deriving DecidableEq, Repr

/-- A Go `map[string]interface{}` literal, as its entries in source order. -/
abbrev Object := List (String × Value)

/-- The value stored under `key`, if any. -/
def Object.get? (o : Object) (key : String) : Option Value :=
  (o.find? (·.1 = key)).map (·.2)

end json

namespace http

def MethodPost : String := "POST"

def StatusOK : Nat := 200

def StatusBadRequest : Nat := 400

def StatusMethodNotAllowed : Nat := 405

def StatusInternalServerError : Nat := 500

def StatusBadGateway : Nat := 502

/-- One `Write` on the response body: plain text, or the JSON encoding of an
object (represented by the object that the encoder serialises). -/
inductive Payload where
  | text (s : String)
  | json (o : json.Object)
deriving DecidableEq, Repr

/-- Type `http.Header`, with canonical keys. -/
abbrev Header := List (String × String)

/-- Method `Header.Del`. -/
def Header.Del (h : Header) (key : String) : Header := h.filter (·.1 ≠ key)

/-- Method `Header.Set`. -/
def Header.Set (h : Header) (key value : String) : Header := Header.Del h key ++ [(key, value)]

/-- Method `Header.Get`. -/
def Header.Get (h : Header) (key : String) : String :=
  match h.find? (·.1 = key) with
  | some kv => kv.2
  | none => ""

/-- An `http.ResponseWriter`: the header map, every call of `WriteHeader`
(explicit, or implied by the first `Write`) in order, and the writes to the
body. The status the client sees is the first entry of `codes`. -/
structure ResponseWriter where
  header : Header
  codes : List Nat
  body : List Payload
deriving DecidableEq, Repr

/-- Method `WriteHeader(code)`. -/
def ResponseWriter.WriteHeader (w : ResponseWriter) (code : Nat) : ResponseWriter :=
  { w with codes := w.codes ++ [code] }

/-- Method `Write`: sends `200` first when no status was sent yet. -/
def ResponseWriter.Write (w : ResponseWriter) (p : Payload) : ResponseWriter :=
  let w1 := if w.codes = [] then w.WriteHeader StatusOK else w
  { w1 with body := w1.body ++ [p] }

/-- Function `http.Error(w, error, code)`. -/
def Error (w : ResponseWriter) (error : String) (code : Nat) : ResponseWriter :=
  let h1 := Header.Del w.header "Content-Length"
  let h2 := Header.Set h1 "Content-Type" "text/plain; charset=utf-8"
  let h3 := Header.Set h2 "X-Content-Type-Options" "nosniff"
  let w1 := ResponseWriter.WriteHeader { w with header := h3 } code
  -- fmt.Fprintln(w, error)
  w1.Write (Payload.text (error ++ "\n"))

/-- The parts of an `*http.Request` that a handler can look at. -/
structure Request where
  Method : String
  Path : String
  Header : Header
  Body : io.ReadCloser
deriving DecidableEq, Repr

end http

/-! ## Package modules/s3 -/

namespace modules.s3

/-- Type `Uploader`; its `client` is the upload manager, reached through the world. -/
structure Uploader where
  bucket : String
deriving DecidableEq, Repr

/-- Function `NewUploader`. -/
def NewUploader (bucket : String) : Uploader := ⟨bucket⟩

/-- Method `(*Uploader).UploadFile`: uploads a file to S3 and returns its location. -/
def Uploader.UploadFile (u : Uploader) (file : os.File) (σ : World) : Except Err String × World :=
  let id := uuid.NewString σ
  let fileID := id.1
  let key := filepath.Join ["raw", fileID]
  match manager.Upload u.bucket key file id.2 with
  | (.error err, σ1) => (.error err, σ1)
  | (.ok out, σ1) => (.ok out.Location, σ1)

end modules.s3

/-! ## Package modules/handler -/

namespace modules.handler

/-- Type `UploadHandler`. -/
structure UploadHandler where
  s3Uploader : modules.s3.Uploader
deriving DecidableEq, Repr

/-- Function `NewUploadHandler`. -/
def NewUploadHandler (bucket : String) : UploadHandler := ⟨modules.s3.NewUploader bucket⟩

/-- Function `validatePost`: ensures that only the POST method is used. -/
def validatePost (r : http.Request) : Option Err :=
  if r.Method ≠ http.MethodPost then some (Err.other "use POST method") else none

/-- Function `createTempFile`: the temporary file and its cleanup function. -/
def createTempFile (σ : World) : Except Err (os.File × (World → World)) × World :=
  match os.CreateTemp "upload-*" σ with
  | (.error err, σ1) => (.error err, σ1)
  | (.ok tmp, σ1) => (.ok (tmp, fun ρ => (os.Remove tmp.Name ρ).2), σ1)

/-- Function `hashAndSave`: reads from `src`, writes to `tmp` and returns hash
and size; also the reader and the file as the call leaves them. -/
def hashAndSave (src : io.ReadCloser) (tmp : os.File) :
    Except Err (String × Int) × io.ReadCloser × os.File :=
  -- defer src.Close(): the reader is closed on every return
  -- Limits the reading to 1GB
  let r := io.LimitReader src ((1 <<< 30 : Nat) : Int)
  -- MultiWriter writes simultaneously to the file and the hash
  let hasher := sha256.New
  let mw := io.MultiWriter tmp hasher
  -- Copies in blocks of 32KB
  let out := io.CopyBuffer mw r (32 * 1024)
  match out.err with
  | some err => (.error err, out.src.R.Close, out.dst.tmp)
  | none =>
    -- Ensures flush to disk and repositions cursor
    match out.dst.tmp.Sync with
    | (some err, tmp1) => (.error err, out.src.R.Close, tmp1)
    | (none, tmp1) =>
      match tmp1.Seek 0 io.SeekStart with
      | ((_, some err), tmp2) => (.error err, out.src.R.Close, tmp2)
      | ((_, none), tmp2) =>
        -- Returns hash in hex and size in bytes
        (.ok (hex.EncodeToString (out.dst.hasher.Sum []), out.written), out.src.R.Close, tmp2)

/-- Function `respondJSON`: sends the final response to the client. -/
def respondJSON (w : http.ResponseWriter) (location hash : String) (size : Int) :
    http.ResponseWriter :=
  let w1 := { w with header := http.Header.Set w.header "Content-Type" "application/json" }
  let resp : json.Object := [
    ("file_id", json.Value.str (filepath.Base location)),
    ("size", json.Value.num size),
    ("sha256", json.Value.str hash),
    ("location", json.Value.str location)]
  -- json.NewEncoder(w).Encode(resp)
  w1.Write (http.Payload.json resp)

/-- Method `(*UploadHandler).ServeHTTP`: the response writer, the request (with
its body as read so far) and the world when the handler returns. -/
def UploadHandler.ServeHTTP (h : UploadHandler) (w : http.ResponseWriter) (r : http.Request)
    (σ : World) : http.ResponseWriter × http.Request × World :=
  -- 1. Validate if we are using POST method
  match validatePost r with
  | some err => (http.Error w err.Error http.StatusMethodNotAllowed, r, σ)
  | none =>
    -- 2. Create a temporary file and cleanup function
    match createTempFile σ with
    | (.error err, σ1) =>
      (http.Error w ("tmp file: " ++ err.Error) http.StatusInternalServerError, r, σ1)
    | (.ok (tmpFile, cleanup), σ1) =>
      -- defer cleanup(): runs on the world of every return below
      -- 3. Read, write to temp file and calculate hash/size
      match hashAndSave r.Body tmpFile with
      | (.error err, body, _) =>
        (http.Error w ("save: " ++ err.Error) http.StatusBadRequest,
          { r with Body := body }, cleanup σ1)
      | (.ok (hash, size), body, tmp1) =>
        -- 4. Send to S3 and get location
        match h.s3Uploader.UploadFile tmp1 σ1 with
        | (.error err, σ2) =>
          (http.Error w ("s3: " ++ err.Error) http.StatusBadGateway,
            { r with Body := body }, cleanup σ2)
        | (.ok location, σ2) =>
          -- 5. Respond JSON to client
          (respondJSON w location hash size, { r with Body := body }, cleanup σ2)

end modules.handler

/-! ## Package handler (the earlier layout, with the upload inlined) -/

namespace handler

/-- Type `UploadHandler`; its `Uploader` is the upload manager, reached through the world. -/
structure UploadHandler where
  Bucket : String
deriving DecidableEq, Repr

/-- Function `NewUploadHandler`. -/
def NewUploadHandler (bucket : String) : UploadHandler := ⟨bucket⟩

/-- Function `validatePost`: ensures that only the POST method is used. -/
def validatePost (r : http.Request) : Option Err :=
  if r.Method ≠ http.MethodPost then some (Err.other "use POST method") else none

/-- Function `createTempFile`: the temporary file and its cleanup function. -/
def createTempFile (σ : World) : Except Err (os.File × (World → World)) × World :=
  match os.CreateTemp "upload-*" σ with
  | (.error err, σ1) => (.error err, σ1)
  | (.ok tmp, σ1) => (.ok (tmp, fun ρ => (os.Remove tmp.Name ρ).2), σ1)

/-- Function `hashAndSave`: reads from `src`, writes to `tmp` and returns hash
and size; also the reader and the file as the call leaves them. -/
def hashAndSave (src : io.ReadCloser) (tmp : os.File) :
    Except Err (String × Int) × io.ReadCloser × os.File :=
  -- defer src.Close(): the reader is closed on every return
  let r := io.LimitReader src ((1 <<< 30 : Nat) : Int)
  let hasher := sha256.New
  let mw := io.MultiWriter tmp hasher
  let out := io.CopyBuffer mw r (32 * 1024)
  match out.err with
  | some err => (.error err, out.src.R.Close, out.dst.tmp)
  | none =>
    match out.dst.tmp.Sync with
    | (some err, tmp1) => (.error err, out.src.R.Close, tmp1)
    | (none, tmp1) =>
      match tmp1.Seek 0 io.SeekStart with
      | ((_, some err), tmp2) => (.error err, out.src.R.Close, tmp2)
      | ((_, none), tmp2) =>
        (.ok (hex.EncodeToString (out.dst.hasher.Sum []), out.written), out.src.R.Close, tmp2)

/-- Method `(*UploadHandler).uploadToS3`: executes the upload and returns the object URL. -/
def UploadHandler.uploadToS3 (h : UploadHandler) (tmp : os.File) (σ : World) :
    Except Err String × World :=
  let id := uuid.NewString σ
  let fileID := id.1
  let key := filepath.Join ["raw", fileID]
  match manager.Upload h.Bucket key tmp id.2 with
  | (.error err, σ1) => (.error err, σ1)
  | (.ok out, σ1) => (.ok out.Location, σ1)

/-- Function `respondJSON`: sends the final response to the client. -/
def respondJSON (w : http.ResponseWriter) (location hash : String) (size : Int) :
    http.ResponseWriter :=
  let w1 := { w with header := http.Header.Set w.header "Content-Type" "application/json" }
  let resp : json.Object := [
    ("file_id", json.Value.str (filepath.Base location)),
    ("size", json.Value.num size),
    ("sha256", json.Value.str hash),
    ("location", json.Value.str location)]
  w1.Write (http.Payload.json resp)

/-- Method `(*UploadHandler).ServeHTTP`: the response writer, the request (with
its body as read so far) and the world when the handler returns. -/
def UploadHandler.ServeHTTP (h : UploadHandler) (w : http.ResponseWriter) (r : http.Request)
    (σ : World) : http.ResponseWriter × http.Request × World :=
  match validatePost r with
  | some err => (http.Error w err.Error http.StatusMethodNotAllowed, r, σ)
  | none =>
    match createTempFile σ with
    | (.error err, σ1) =>
      (http.Error w ("tmp file: " ++ err.Error) http.StatusInternalServerError, r, σ1)
    | (.ok (tmpFile, cleanup), σ1) =>
      -- defer cleanup(): runs on the world of every return below
      match hashAndSave r.Body tmpFile with
      | (.error err, body, _) =>
        (http.Error w ("save: " ++ err.Error) http.StatusBadRequest,
          { r with Body := body }, cleanup σ1)
      | (.ok (hash, size), body, tmp1) =>
        match h.uploadToS3 tmp1 σ1 with
        | (.error err, σ2) =>
          (http.Error w ("s3: " ++ err.Error) http.StatusBadGateway,
            { r with Body := body }, cleanup σ2)
        | (.ok location, σ2) =>
          (respondJSON w location hash size, { r with Body := body }, cleanup σ2)

end handler

/-! ## Vocabulary of the specification -/

/-- A canonical UUID string as the specification describes it: 36 characters,
each a lower-case hexadecimal digit or `-`. -/
def isCanonicalUUID (s : String) : Bool :=
  s.length == 36 && s.data.all fun c => "0123456789abcdef-".data.contains c

/-- The text after the final `/` of a string (all of it when it has none),
read off from left to right: every `/` starts the segment afresh. -/
def textAfterFinalSlash (s : String) : String :=
  String.mk (s.data.foldl (fun seg c => if c = '/' then [] else seg ++ [c]) [])

/-- Every answer of the request body's transport is a delivery of bytes: no `Read` fails. -/
def readsSucceed (b : io.ReadCloser) : Bool :=
  b.script.all fun s => match s with
    | .data _ _ => true
    | .fail _ => false

/-- The device takes `n` more bytes: no `Write` of at most `n` bytes in total fails. -/
def writesSucceed (f : os.File) (n : Nat) : Bool :=
  match f.space with
  | none => true
  | some s => decide (n ≤ s)

/-- The digest that results when a digest with chaining value `h` and an empty
buffer takes in the bytes `buf` and then counts `len` bytes in all: the whole
blocks of `buf` are compressed, the bytes after them stay buffered. -/
def sha256.absorb (h : sha256.Regs) (buf : List UInt8) (len : Nat) : sha256.digest :=
  ⟨sha256.block h buf, buf.drop (buf.length - buf.length % sha256.chunk), len⟩

/-- The bytes a limited reader still hands over: what is left of the stream,
cut at the limit. -/
def io.LimitedReader.pending (l : io.LimitedReader) : List UInt8 := l.R.rest.take l.N.toNat

/-! ## Sample inputs for the worked instances -/

/-- The five bytes of the text `hello`. -/
def helloBytes : List UInt8 := [104, 101, 108, 108, 111]

/-- A world in which nothing fails: an empty temp directory `/tmp`, random
names `0`, `1`, ..., a device without limit, two distinct identifiers, and a
store that accepts every object and answers with its URL. -/
def quietWorld : World where
  tempDir := "/tmp"
  files := []
  rand := fun n => Nat.repr n
  randPos := 0
  openErr := none
  space := none
  syncErr := none
  seekErr := none
  uuid := fun n =>
    if n = 0 then "123e4567-e89b-42d3-a456-426614174000"
    else "9b2f0c1a-7d4e-4f6a-8b3c-5e1d2a3f4b5c"
  uuidPos := 0
  store := fun input => .ok ("https://" ++ input.Bucket ++ ".s3.amazonaws.com/" ++ input.Key)
  puts := []

/-- A response writer nothing has been written to. -/
def freshWriter : http.ResponseWriter := ⟨[], [], []⟩

/-- The body `hello`, handed over in reads of two, zero and three bytes, the
last one together with `io.EOF`. -/
def helloBody : io.ReadCloser :=
  ⟨helloBytes, [.data 2 false, .data 0 false, .data 3 true], false⟩

/-- A POST of `hello` to the upload route. -/
def helloPost : http.Request :=
  ⟨"POST", "/v1/upload", [("Content-Type", "text/plain")], helloBody⟩

/-- The same request sent with method GET. -/
def helloGet : http.Request := { helloPost with Method := "GET" }

/-- A POST whose body is one byte longer than the bound of `2 ^ 30` bytes. -/
def oversizedPost : http.Request :=
  ⟨"POST", "/v1/upload", [], ⟨List.replicate (2 ^ 30 + 1) 0, [], false⟩⟩

/-- A newly created, empty temporary file on a device without faults. -/
def emptyTemp : os.File := ⟨"/tmp/upload-0", [], 0, none, none, none⟩

/-- The handler of package `modules/handler` for the bucket `docs`. -/
def docsHandler : modules.handler.UploadHandler := modules.handler.NewUploadHandler "docs"

/-- The handler of package `handler` for the bucket `docs`. -/
def docsHandlerOld : handler.UploadHandler := handler.NewUploadHandler "docs"

/-- The quiet world with a store that refuses every object. -/
def offlineWorld : World := { quietWorld with store := fun _ => .error "connection reset" }

/-- An empty temporary file on a device whose `Sync` fails. -/
def unsyncedTemp : os.File := { emptyTemp with syncErr := some "input/output error" }


/-! ## Lemmas: crypto/sha256 -/

namespace sha256

theorem block_of_lt (h : Regs) (p : List UInt8) (hp : p.length < 64) : block h p = h := by
  unfold block
  have h0 : p.length / chunk = 0 := by
    simp only [chunk]; omega
  rw [h0]; rfl

theorem block_of_le (h : Regs) (p : List UInt8) (hp : 64 ≤ p.length) :
    block h p = block (compress h (p.take 64)) (p.drop 64) := by
  unfold block
  have h1 : p.length / chunk = (p.drop 64).length / chunk + 1 := by
    simp only [chunk, List.length_drop]; omega
  rw [h1]
  simp [blockLoop, chunk, hp]

theorem block_append_aux (q : List UInt8) (n : Nat) :
    ∀ (p : List UInt8) (h : Regs), p.length = n → p.length % 64 = 0 →
      block h (p ++ q) = block (block h p) q := by
  induction n using Nat.strong_induction_on with
  | _ n ih =>
    intro p h hn hp
    by_cases hlt : p.length < 64
    · have h0 : p.length = 0 := by omega
      have hnil : p = [] := List.length_eq_zero.mp h0
      subst hnil
      simp [block_of_lt]
    · have hle : 64 ≤ p.length := by omega
      have hle2 : 64 ≤ (p ++ q).length := by simp; omega
      rw [block_of_le h (p ++ q) hle2, block_of_le h p hle]
      have ht : (p ++ q).take 64 = p.take 64 := by
        rw [List.take_append_of_le_length hle]
      have hd : (p ++ q).drop 64 = p.drop 64 ++ q := by
        rw [List.drop_append_of_le_length hle]
      rw [ht, hd]
      exact ih (p.drop 64).length (by simp; omega) (p.drop 64) _ rfl (by simp; omega)

theorem block_append (p q : List UInt8) (hp : p.length % 64 = 0) (h : Regs) :
    block h (p ++ q) = block (block h p) q :=
  block_append_aux q p.length p h rfl hp

theorem block_take (h : Regs) (p : List UInt8) :
    block h (p.take (p.length - p.length % 64)) = block h p := by
  have hsplit : p = p.take (p.length - p.length % 64) ++ p.drop (p.length - p.length % 64) :=
    (List.take_append_drop _ _).symm
  have hlen : (p.take (p.length - p.length % 64)).length % 64 = 0 := by
    simp only [List.length_take]; omega
  conv_rhs => rw [hsplit]
  rw [block_append _ _ hlen, block_of_lt _ (p.drop _)]
  simp only [List.length_drop]; omega

theorem drop_append_left (x p : List UInt8) (k : Nat) (hk : x.length ≤ k) :
    (x ++ p).drop k = p.drop (k - x.length) := by
  rw [List.drop_append_eq_append_drop, List.drop_eq_nil_of_le hk, List.nil_append]

theorem Write_eq_absorb (d : digest) (p : List UInt8) (hx : d.x.length < 64) :
    d.Write p = absorb d.h (d.x ++ p) ((d.len + p.length) % 2 ^ 64) := by
  obtain ⟨h, x, len⟩ := d
  simp only at hx
  by_cases hx0 : 0 < x.length
  · by_cases hfit : p.length < 64 - x.length
    · -- the bytes all go to the buffer
      have hmin : min (64 - x.length) p.length = p.length := by omega
      have hne : ¬ (x.length + p.length = 64) := by omega
      have hlt : (x ++ p).length < 64 := by simp; omega
      have h0 : x.length + p.length - (x.length + p.length) % 64 = 0 := by omega
      simp [digest.Write, absorb, chunk, hx0, hmin, hne, block_of_lt _ _ hlt, h0]
    · -- the buffer fills up and is compressed
      have hmin : min (64 - x.length) p.length = 64 - x.length := by omega
      have hfull : x.length + (64 - x.length) = 64 := by omega
      have hx1 : (x ++ p.take (64 - x.length)).length % 64 = 0 := by
        simp only [List.length_append, List.length_take]; omega
      have hsplit : x ++ p = (x ++ p.take (64 - x.length)) ++ p.drop (64 - x.length) := by
        simp
      have hblock : block h (x ++ p) =
          block (block h (x ++ p.take (64 - x.length))) (p.drop (64 - x.length)) := by
        conv_lhs => rw [hsplit]
        exact block_append _ _ hx1 h
      have hdrop : (x ++ p).drop (x.length + p.length - (x.length + p.length) % 64) =
          p.drop (x.length + p.length - (x.length + p.length) % 64 - x.length) :=
        drop_append_left _ _ _ (by omega)
      by_cases hbig : 64 ≤ p.length - (64 - x.length)
      · have htk := block_take (block h (x ++ p.take (64 - x.length))) (p.drop (64 - x.length))
        simp only [List.length_drop] at htk
        simp only [digest.Write, absorb, chunk, hx0, hmin, hfull, hbig, List.length_append,
          List.length_take, List.length_drop, if_true, htk, hblock, hdrop, List.drop_drop]
        split_ifs with hne
        · congr 2; omega
        · congr 1
          symm
          apply List.drop_eq_nil_of_le
          omega
      · have hl : block (block h (x ++ p.take (64 - x.length))) (p.drop (64 - x.length)) =
            block h (x ++ p.take (64 - x.length)) :=
          block_of_lt _ _ (by simp only [List.length_drop]; omega)
        simp only [digest.Write, absorb, chunk, hx0, hmin, hfull, hbig, List.length_append,
          List.length_take, List.length_drop, if_true, if_false, hblock, hdrop, hl]
        split_ifs with hne
        · congr 2; omega
        · congr 1
          symm
          apply List.drop_eq_nil_of_le
          omega
  · have hnil : x = [] := by
      cases x with
      | nil => rfl
      | cons a t => simp at hx0
    subst hnil
    by_cases hbig : 64 ≤ p.length
    · have htk := block_take h p
      simp only [digest.Write, absorb, chunk, hbig, List.length_nil, lt_self_iff_false, if_false,
        if_true, htk, List.nil_append, List.length_drop]
      split_ifs with hne
      · rfl
      · congr 1
        symm
        apply List.drop_eq_nil_of_le
        omega
    · have hl : block h p = h := block_of_lt _ _ (by omega)
      have h0 : p.length - p.length % 64 = 0 := by omega
      simp only [digest.Write, absorb, chunk, hbig, List.length_nil, lt_self_iff_false, if_false,
        hl, List.nil_append, h0, List.drop_zero]
      split_ifs with hne
      · rfl
      · congr 1
        symm
        exact List.length_eq_zero.mp (by omega)

theorem absorb_buffer_lt (h : Regs) (buf : List UInt8) (len : Nat) :
    (absorb h buf len).x.length < 64 := by
  simp only [absorb, chunk, List.length_drop]; omega

theorem Write_buffer_lt (d : digest) (p : List UInt8) (hx : d.x.length < 64) :
    (d.Write p).x.length < 64 := by
  rw [Write_eq_absorb d p hx]; exact absorb_buffer_lt _ _ _

theorem digest_Write_Write (d : digest) (a b : List UInt8) (hx : d.x.length < 64) :
    (d.Write a).Write b = d.Write (a ++ b) := by
  rw [Write_eq_absorb (d.Write a) b (Write_buffer_lt d a hx), Write_eq_absorb d a hx,
    Write_eq_absorb d (a ++ b) hx]
  generalize hbuf : d.x ++ a = buf
  have hbuf2 : d.x ++ (a ++ b) = buf ++ b := by rw [← hbuf, List.append_assoc]
  have hlen : buf.length = d.x.length + a.length := by rw [← hbuf, List.length_append]
  rw [hbuf2]
  have hpre : (buf.take (buf.length - buf.length % 64)).length % 64 = 0 := by
    simp only [List.length_take]; omega
  have hsplit : buf ++ b =
      buf.take (buf.length - buf.length % 64) ++ (buf.drop (buf.length - buf.length % 64) ++ b) := by
    rw [← List.append_assoc, List.take_append_drop]
  have hblock : block d.h (buf ++ b) =
      block (block d.h buf) (buf.drop (buf.length - buf.length % 64) ++ b) := by
    conv_lhs => rw [hsplit]
    rw [block_append _ _ hpre, block_take]
  have hk : (buf.take (buf.length - buf.length % 64)).length = buf.length - buf.length % 64 := by
    simp only [List.length_take]; omega
  have hdrop : (buf ++ b).drop ((buf ++ b).length - (buf ++ b).length % 64) =
      (buf.drop (buf.length - buf.length % 64) ++ b).drop
        ((buf.drop (buf.length - buf.length % 64) ++ b).length -
          (buf.drop (buf.length - buf.length % 64) ++ b).length % 64) := by
    have hle : (buf.take (buf.length - buf.length % 64)).length ≤
        (buf ++ b).length - (buf ++ b).length % 64 := by
      rw [hk]; simp only [List.length_append]; omega
    conv_lhs => rw [hsplit, ← hsplit]
    conv_lhs => arg 2; rw [hsplit]
    rw [drop_append_left _ _ _ hle, hk]
    congr 1
    simp only [List.length_append, List.length_drop]
    omega
  simp only [absorb, chunk, hblock, hdrop]
  congr 1
  simp only [List.length_append]
  omega

/-- The assertion `d.nx == 0` that `checkSum` makes after writing the padding
holds for every digest whose buffer length is its byte count modulo 64. -/
theorem checkSum_buffer_empty (d : digest) (hx : d.x.length = d.len % 64) :
    (d.Write (padding d.len)).x = [] := by
  rw [Write_eq_absorb d _ (by omega)]
  simp only [absorb, chunk]
  apply List.drop_eq_nil_of_le
  have hpad : (padding d.len).length = (if d.len % 64 < 56 then 56 - d.len % 64
      else 64 + 56 - d.len % 64) + 8 := by
    simp only [padding, putUint64, List.length_append, List.length_take, List.length_cons,
      List.length_replicate, List.length_nil]
    split_ifs <;> omega
  simp only [List.length_append, hpad]
  split_ifs <;> omega

theorem New_Write_wellformed (s : List UInt8) :
    (New.Write s).x.length = (New.Write s).len % 64 := by
  rw [Write_eq_absorb New s (by simp [New])]
  simp only [absorb, chunk, New, List.nil_append, List.length_drop, Nat.zero_add]
  omega

theorem checkSum_length (d : digest) : d.checkSum.length = 32 := by
  simp [digest.checkSum, putUint32]

end sha256

namespace hex

theorem EncodeToString_length (src : List UInt8) : (EncodeToString src).length = 2 * src.length := by
  unfold EncodeToString
  simp only [String.length]
  induction src with
  | nil => rfl
  | cons v t ih => simp only [List.flatMap_cons, List.length_append, ih, List.length_cons,
      List.length_nil]; omega

theorem hextable_getD_mem (i : Nat) (hi : i < 16) :
    hextable.data.getD i '0' ∈ "0123456789abcdef".data := by
  interval_cases i <;> decide

theorem EncodeToString_chars (src : List UInt8) :
    ∀ c ∈ (EncodeToString src).data, c ∈ "0123456789abcdef".data := by
  unfold EncodeToString
  intro c hc
  simp only [List.mem_flatMap, List.mem_cons, List.mem_singleton, List.not_mem_nil,
    or_false] at hc
  obtain ⟨v, _, hv⟩ := hc
  have hlt : v.toNat < 256 := v.toNat_lt
  rcases hv with rfl | rfl
  · apply hextable_getD_mem
    rw [Nat.shiftRight_eq_div_pow]; omega
  · apply hextable_getD_mem
    exact Nat.lt_of_le_of_lt Nat.and_le_right (by decide)

end hex

/-! ## Lemmas: os.File -/

namespace os

theorem overwrite_nil (data : List UInt8) (pos : Nat) : overwrite data pos [] = data := by
  simp [overwrite]

theorem overwrite_append (data : List UInt8) (pos : Nat) (a b : List UInt8) :
    overwrite (overwrite data pos a) (pos + a.length) b = overwrite data pos (a ++ b) := by
  by_cases ha : a = []
  · subst ha; simp [overwrite]
  by_cases hb : b = []
  · subst hb; simp [overwrite]
  have hab : a ++ b ≠ [] := by simp [ha]
  have hP : (data.take pos ++ List.replicate (pos - data.length) 0).length = pos := by
    simp only [List.length_append, List.length_take, List.length_replicate]; omega
  simp only [overwrite, ha, hb, hab, if_false]
  generalize hPd : data.take pos ++ List.replicate (pos - data.length) 0 = P at hP
  have htake : (P ++ a ++ data.drop (pos + a.length)).take (pos + a.length) = P ++ a := by
    rw [List.take_append_of_le_length (by simp [hP])]
    apply List.take_of_length_le
    simp [hP]
  have hrep : pos + a.length - (P ++ a ++ data.drop (pos + a.length)).length = 0 := by
    simp only [List.length_append, hP]; omega
  have hdrop : (P ++ a ++ data.drop (pos + a.length)).drop (pos + a.length + b.length) =
      data.drop (pos + (a ++ b).length) := by
    rw [List.drop_append_eq_append_drop, List.drop_eq_nil_of_le (by simp [hP])]
    simp only [List.length_append, hP, List.nil_append, List.drop_drop]
    congr 1; omega
  rw [htake, hrep, hdrop]
  simp

theorem File_Write_ok_iff (f : File) (p : List UInt8) :
    (f.Write p).1.2 = none ↔ writesSucceed f p.length = true := by
  unfold File.Write writesSucceed
  cases hs : f.space with
  | none => simp
  | some s => simp

theorem File_Write_of_ok (f : File) (p : List UInt8) (h : (f.Write p).1.2 = none) :
    f.Write p = ((p.length, none),
      { f with data := overwrite f.data f.pos p, pos := f.pos + p.length,
               space := f.space.map (· - p.length) }) := by
  have hw := (File_Write_ok_iff f p).mp h
  unfold File.Write writesSucceed at *
  cases hs : f.space with
  | none => simp
  | some s =>
    rw [hs] at hw
    simp only [decide_eq_true_eq] at hw
    have hmin : min s p.length = p.length := by omega
    simp [hmin]

end os

namespace io

theorem take_min_length {α : Type} (l : List α) (k : Nat) : l.take k = l.take (min k l.length) := by
  rcases Nat.le_total k l.length with h | h
  · rw [Nat.min_eq_left h]
  · rw [Nat.min_eq_right h, List.take_of_length_le h, List.take_length]

theorem drop_min_length {α : Type} (l : List α) (k : Nat) : l.drop k = l.drop (min k l.length) := by
  rcases Nat.le_total k l.length with h | h
  · rw [Nat.min_eq_left h]
  · rw [Nat.min_eq_right h, List.drop_eq_nil_of_le h, List.drop_length]

theorem ReadCloser_Read_spec (b : ReadCloser) (cap : Nat) :
    ∃ k, k ≤ cap ∧ k ≤ b.rest.length ∧ (b.Read cap).1.1 = b.rest.take k ∧
      (b.Read cap).2.rest = b.rest.drop k ∧
      ((b.Read cap).1.2 = none → 0 < cap →
        (b.Read cap).2.script.length + (b.Read cap).2.rest.length <
          b.script.length + b.rest.length) ∧
      ((b.Read cap).1.2 = some Err.EOF → (b.Read cap).2.rest = []) ∧
      (readsSucceed b = true → readsSucceed (b.Read cap).2 = true ∧
        ((b.Read cap).1.2 = none ∨ (b.Read cap).1.2 = some Err.EOF)) := by
  obtain ⟨rest, script, closed⟩ := b
  cases script with
  | nil =>
    by_cases hr : rest = []
    · subst hr
      exact ⟨0, by simp [ReadCloser.Read, readsSucceed]⟩
    · have hpos : 0 < rest.length := List.length_pos.mpr hr
      refine ⟨min cap rest.length, Nat.min_le_left _ _, Nat.min_le_right _ _, ?_⟩
      simp only [ReadCloser.Read, List.isEmpty_iff, hr, if_false, ← take_min_length,
        ← drop_min_length, true_and, List.length_nil, List.length_drop, reduceCtorEq,
        false_implies, readsSucceed, List.all_nil, or_false, and_self, and_true, implies_true]
      intro hc
      omega
  | cons st s =>
    cases st with
    | data n eof =>
      refine ⟨min (min n cap) rest.length, ?_, Nat.min_le_right _ _, ?_⟩
      · exact Nat.le_trans (Nat.min_le_left _ _) (Nat.min_le_right _ _)
      · simp only [ReadCloser.Read, ← take_min_length, ← drop_min_length, true_and,
          List.length_cons, List.length_drop, readsSucceed, List.all_cons, Bool.true_and]
        refine ⟨?_, ?_, ?_⟩
        · intro _ _; omega
        · intro h
          split_ifs at h with hc
          · simp only [Bool.and_eq_true, List.isEmpty_iff] at hc
            exact hc.2
        · intro hs
          refine ⟨hs, ?_⟩
          split_ifs <;> simp
    | fail msg =>
      exact ⟨0, by simp [ReadCloser.Read, readsSucceed]⟩

theorem LimitedReader_Read_spec (l : LimitedReader) (buf : Nat) (hbuf : 0 < buf) :
    l.pending = (l.Read buf).1.1 ++ (l.Read buf).2.pending ∧
    ((l.Read buf).1.2 = none →
      (l.Read buf).2.R.script.length + (l.Read buf).2.R.rest.length <
        l.R.script.length + l.R.rest.length) ∧
    ((l.Read buf).1.2 = some Err.EOF → (l.Read buf).2.pending = []) ∧
    (readsSucceed l.R = true → readsSucceed (l.Read buf).2.R = true ∧
      ((l.Read buf).1.2 = none ∨ (l.Read buf).1.2 = some Err.EOF)) := by
  by_cases hN : l.N ≤ 0
  · have h0 : l.N.toNat = 0 := by omega
    simp [LimitedReader.Read, hN, LimitedReader.pending, h0]
  · generalize hcap : (if (buf : Int) > l.N then l.N.toNat else buf) = cap1
    have hcap0 : 0 < cap1 := by
      rw [← hcap]; split_ifs <;> omega
    have hcapN : cap1 ≤ l.N.toNat := by
      rw [← hcap]; split_ifs <;> omega
    obtain ⟨k, hk1, hk2, hbs, hrest, hdec, heof, hok⟩ := ReadCloser_Read_spec l.R cap1
    have hlen : ((l.R.Read cap1).1.1.length : Int) = k := by
      rw [hbs, List.length_take]; omega
    have hread : l.Read buf = ((l.R.Read cap1).1,
        { R := (l.R.Read cap1).2, N := l.N - ((l.R.Read cap1).1.1.length : Int) }) := by
      simp only [LimitedReader.Read, hN, if_false, hcap]
    rw [hread]
    refine ⟨?_, fun h => hdec h hcap0, ?_, hok⟩
    · have hlen2 : (List.take k l.R.rest).length = k := by
        rw [List.length_take]; omega
      simp only [LimitedReader.pending, hbs, hrest, hlen2]
      have hsub : (l.N - (k : Int)).toNat = l.N.toNat - k := by omega
      rw [hsub]
      have hadd : l.N.toNat = k + (l.N.toNat - k) := by omega
      conv_lhs => rw [hadd, List.take_add]
    · intro h
      simp only [LimitedReader.pending, heof h, List.take_nil]

end io

namespace sha256

theorem digest_Write_nil (d : digest) (hx : d.x.length < 64) (hl : d.len < 2 ^ 64) : d.Write [] = d := by
  rw [Write_eq_absorb d [] hx]
  obtain ⟨h, x, len⟩ := d
  simp only at hx hl
  have h0 : x.length - x.length % 64 = 0 := by omega
  simp only [absorb, chunk, List.append_nil, block_of_lt h x hx, h0, List.drop_zero,
    List.length_nil, Nat.add_zero, Nat.mod_eq_of_lt hl]

theorem Write_len_lt (d : digest) (p : List UInt8) : (d.Write p).len < 2 ^ 64 := by
  have h : (d.Write p).len = (d.len + p.length) % 2 ^ 64 := by
    simp only [digest.Write]
    split_ifs <;> rfl
  rw [h]
  exact Nat.mod_lt _ (by decide)

end sha256

namespace os

theorem File_Write_nil (f : File) : f.Write [] = ((0, none), f) := by
  obtain ⟨name, data, pos, space, syncErr, seekErr⟩ := f
  cases space <;> simp [File.Write, overwrite]

theorem writesSucceed_mono (f : File) (m n : Nat) (hmn : m ≤ n) (h : writesSucceed f n = true) :
    writesSucceed f m = true := by
  unfold writesSucceed at *
  cases hs : f.space with
  | none => rfl
  | some s =>
    rw [hs] at h
    simp only [decide_eq_true_eq] at h ⊢
    omega

theorem writesSucceed_after (f : File) (p : List UInt8) (n : Nat)
    (h : writesSucceed f (p.length + n) = true) :
    (f.Write p).1.2 = none ∧ writesSucceed (f.Write p).2 n = true := by
  have h1 := writesSucceed_mono f p.length (p.length + n) (by omega) h
  have h2 := (File_Write_ok_iff f p).mpr h1
  refine ⟨h2, ?_⟩
  rw [File_Write_of_ok f p h2]
  unfold writesSucceed at *
  cases hs : f.space with
  | none => simp
  | some s =>
    rw [hs] at h
    simp only [decide_eq_true_eq] at h
    simp only [Option.map_some', decide_eq_true_eq]
    omega

theorem File_Write_Write (f : File) (a b : List UInt8) (ha : (f.Write a).1.2 = none)
    (hb : ((f.Write a).2.Write b).1.2 = none) :
    (f.Write (a ++ b)).1.2 = none ∧ (f.Write (a ++ b)).2 = ((f.Write a).2.Write b).2 := by
  have hab : (f.Write (a ++ b)).1.2 = none := by
    rw [File_Write_ok_iff] at ha hb ⊢
    rw [File_Write_of_ok f a ((File_Write_ok_iff f a).mpr ha)] at hb
    unfold writesSucceed at *
    cases hs : f.space with
    | none => rfl
    | some s =>
      rw [hs] at ha
      simp only [hs, Option.map_some', decide_eq_true_eq, List.length_append] at ha hb ⊢
      omega
  refine ⟨hab, ?_⟩
  rw [File_Write_of_ok _ _ hab, File_Write_of_ok _ _ hb, File_Write_of_ok _ _ ha]
  simp only [overwrite_append, List.length_append, Nat.add_assoc, Option.map_map]
  congr 1
  cases f.space with
  | none => rfl
  | some s => simp only [Option.map_some', Function.comp]; congr 1; omega

end os

namespace io

theorem multiWriter_Write_of_ok (t : multiWriter) (p : List UInt8)
    (h : (t.Write p).1.2 = none) :
    (t.tmp.Write p).1.2 = none ∧
      t.Write p = ((p.length, none), ⟨(t.tmp.Write p).2, t.hasher.Write p⟩) := by
  unfold multiWriter.Write at h ⊢
  cases he : (t.tmp.Write p).1.2 with
  | some e => simp [he] at h
  | none =>
    have hw := os.File_Write_of_ok t.tmp p he
    simp only [he, hw, ne_eq, not_true_eq_false, if_false, and_self]

theorem multiWriter_Write_ok (t : multiWriter) (p : List UInt8)
    (h : (t.tmp.Write p).1.2 = none) : (t.Write p).1.2 = none := by
  have hw := os.File_Write_of_ok t.tmp p h
  unfold multiWriter.Write
  simp only [h, hw, ne_eq, not_true_eq_false, if_false]

theorem copyWrite_of_ok (dst : multiWriter) (bs : List UInt8) (written : Int)
    (h : (copyWrite dst bs written).1.2 = none) :
    (dst.tmp.Write bs).1.2 = none ∧
      copyWrite dst bs written =
        ((written + (bs.length : Int), none), ⟨(dst.tmp.Write bs).2, dst.hasher.Write bs⟩) := by
  cases he : (dst.Write bs).1.2 with
  | some e =>
    exfalso
    unfold copyWrite at h
    simp only [he, reduceCtorEq, and_false, if_false] at h
  | none =>
    obtain ⟨h1, h2⟩ := multiWriter_Write_of_ok dst bs he
    refine ⟨h1, ?_⟩
    unfold copyWrite
    simp only [h2, lt_self_iff_false, false_and, if_false, ne_eq, not_true_eq_false]

theorem copyWrite_ok (dst : multiWriter) (bs : List UInt8) (written : Int)
    (h : (dst.tmp.Write bs).1.2 = none) : (copyWrite dst bs written).1.2 = none := by
  have he := multiWriter_Write_ok dst bs h
  obtain ⟨_, h2⟩ := multiWriter_Write_of_ok dst bs he
  unfold copyWrite
  simp only [h2, lt_self_iff_false, false_and, if_false, ne_eq, not_true_eq_false]

/-- The buffer loop always leaves: with more passes allowed than script steps
and bytes remain, the passes do not run out. -/
theorem copyLoop_isSome (buf : Nat) (hbuf : 0 < buf) :
    ∀ (fuel : Nat) (src : LimitedReader) (dst : multiWriter) (written : Int),
      src.R.script.length + src.R.rest.length < fuel →
      (copyLoop buf fuel src dst written).isSome = true := by
  intro fuel
  induction fuel with
  | zero => intro src dst written h; omega
  | succ n ih =>
    intro src dst written h
    obtain ⟨_, hdec, _, _⟩ := LimitedReader_Read_spec src buf hbuf
    simp only [copyLoop]
    split
    · rfl
    · split
      · rfl
      · rename_i her
        exact ih _ _ _ (by have := hdec her; omega)

/-- One pass of the loop, write side: whether or not anything was read, a
write step without error leaves the writer as one `Write` of the bytes read. -/
theorem copyStep_of_ok (dst : multiWriter) (bs : List UInt8) (written : Int)
    (hx : dst.hasher.x.length < 64) (hl : dst.hasher.len < 2 ^ 64)
    (h : (if 0 < bs.length then copyWrite dst bs written else ((written, none), dst)).1.2 = none) :
    (dst.tmp.Write bs).1.2 = none ∧
      (if 0 < bs.length then copyWrite dst bs written else ((written, none), dst)) =
        ((written + (bs.length : Int), none), ⟨(dst.tmp.Write bs).2, dst.hasher.Write bs⟩) := by
  by_cases hb : 0 < bs.length
  · simp only [hb, if_true] at h ⊢
    exact copyWrite_of_ok dst bs written h
  · have hnil : bs = [] := List.length_eq_zero.mp (by omega)
    subst hnil
    simp [os.File_Write_nil, sha256.digest_Write_nil _ hx hl]

/-- A copy that ends without error has passed on exactly the bytes the limited
reader had pending, in one piece as far as file and hash can tell. -/
theorem copyLoop_of_ok (buf : Nat) (hbuf : 0 < buf) :
    ∀ (fuel : Nat) (src : LimitedReader) (dst : multiWriter) (written : Int) (out : CopyOut),
      dst.hasher.x.length < 64 → dst.hasher.len < 2 ^ 64 →
      copyLoop buf fuel src dst written = some out → out.err = none →
      out.written = written + (src.pending.length : Int) ∧
      (dst.tmp.Write src.pending).1.2 = none ∧
      out.dst.tmp = (dst.tmp.Write src.pending).2 ∧
      out.dst.hasher = dst.hasher.Write src.pending := by
  intro fuel
  induction fuel with
  | zero => intro src dst written out _ _ h; simp [copyLoop] at h
  | succ n ih =>
    intro src dst written out hx hl h herr
    obtain ⟨hpend, _, heof, _⟩ := LimitedReader_Read_spec src buf hbuf
    simp only [copyLoop] at h
    split at h
    · rename_i e he
      simp only [Option.some.injEq] at h
      rw [← h] at herr
      simp at herr
    · rename_i hw
      obtain ⟨hw1, hw2⟩ := copyStep_of_ok dst (src.Read buf).1.1 written hx hl hw
      rw [hw2] at h
      split at h
      · rename_i er her
        simp only [Option.some.injEq] at h
        rw [← h] at herr ⊢
        simp only [ne_eq, ite_eq_right_iff, reduceCtorEq, imp_false, not_not] at herr
        rw [herr] at her
        have hp : src.pending = (src.Read buf).1.1 := by
          rw [hpend, heof her, List.append_nil]
        rw [hp]
        exact ⟨rfl, hw1, rfl, rfl⟩
      · rename_i her
        have ih1 := ih _ _ _ out (sha256.Write_buffer_lt _ _ hx) (sha256.Write_len_lt _ _) h herr
        simp only at ih1
        obtain ⟨i1, i2, i3, i4⟩ := ih1
        obtain ⟨c1, c2⟩ := os.File_Write_Write dst.tmp _ _ hw1 i2
        rw [hpend]
        refine ⟨?_, c1, ?_, ?_⟩
        · rw [i1, List.length_append]; push_cast; ring
        · rw [i3, c2]
        · rw [i4, sha256.digest_Write_Write _ _ _ hx]

/-- When no read fails and the device has room for the pending bytes, the copy
ends without error. -/
theorem copyLoop_ok (buf : Nat) (hbuf : 0 < buf) :
    ∀ (fuel : Nat) (src : LimitedReader) (dst : multiWriter) (written : Int),
      src.R.script.length + src.R.rest.length < fuel →
      readsSucceed src.R = true → writesSucceed dst.tmp src.pending.length = true →
      ∃ out, copyLoop buf fuel src dst written = some out ∧ out.err = none := by
  intro fuel
  induction fuel with
  | zero => intro src dst written h; omega
  | succ n ih =>
    intro src dst written h hr hw
    obtain ⟨hpend, hdec, _, hok⟩ := LimitedReader_Read_spec src buf hbuf
    obtain ⟨hr2, her⟩ := hok hr
    rw [hpend, List.length_append] at hw
    obtain ⟨hw1, hw2⟩ := os.writesSucceed_after dst.tmp _ _ hw
    have hstep : (if 0 < (src.Read buf).1.1.length then copyWrite dst (src.Read buf).1.1 written
        else ((written, none), dst)).1.2 = none := by
      split_ifs
      · exact copyWrite_ok _ _ _ hw1
      · rfl
    have hdst : (if 0 < (src.Read buf).1.1.length then copyWrite dst (src.Read buf).1.1 written
        else ((written, none), dst)).2.tmp = (dst.tmp.Write (src.Read buf).1.1).2 := by
      split_ifs with hb
      · rw [(copyWrite_of_ok _ _ _ (copyWrite_ok _ _ written hw1)).2]
      · have hnil : (src.Read buf).1.1 = [] := List.length_eq_zero.mp (by omega)
        rw [hnil, os.File_Write_nil]
    simp only [copyLoop, hstep]
    rcases her with her | her
    · simp only [her]
      apply ih
      · have := hdec her; omega
      · exact hr2
      · rw [hdst]; exact hw2
    · simp only [her]
      exact ⟨_, rfl, by simp⟩

end io

namespace sha256

theorem Sum_nil (d : digest) : d.Sum [] = d.checkSum := List.nil_append _

theorem Sum_New_Write (B : List UInt8) : (New.Write B).Sum [] = Sum256 B := Sum_nil _

end sha256

namespace io

theorem CopyBuffer_eq (dst : multiWriter) (src : LimitedReader) (buf : Nat) (hbuf : 0 < buf) :
    copyLoop buf (src.R.script.length + src.R.rest.length + 1) src dst 0 =
      some (CopyBuffer dst src buf) := by
  have h := copyLoop_isSome buf hbuf (src.R.script.length + src.R.rest.length + 1) src dst 0
    (by omega)
  unfold CopyBuffer
  cases hc : copyLoop buf (src.R.script.length + src.R.rest.length + 1) src dst 0 with
  | none => rw [hc] at h; simp at h
  | some out => rfl

end io

namespace os

theorem Sync_eq (f : File) : f.Sync = (f.syncErr.map Err.other, f) := by
  unfold File.Sync
  cases f.syncErr <;> rfl

theorem Seek_start (f : File) :
    f.Seek 0 io.SeekStart =
      match f.seekErr with
      | some msg => ((0, some (Err.other msg)), f)
      | none => ((0, none), { f with pos := 0 }) := by
  unfold File.Seek
  cases f.seekErr <;> simp [io.SeekStart]

theorem Write_syncErr (f : File) (p : List UInt8) : (f.Write p).2.syncErr = f.syncErr := rfl

theorem Write_seekErr (f : File) (p : List UInt8) : (f.Write p).2.seekErr = f.seekErr := rfl

theorem Write_name (f : File) (p : List UInt8) : (f.Write p).2.name = f.name := rfl

end os

namespace modules.handler

theorem limit_pending (src : io.ReadCloser) :
    (io.LimitReader src ((1 <<< 30 : Nat) : Int)).pending = src.rest.take (2 ^ 30) := by
  simp [io.LimitReader, io.LimitedReader.pending]

/-- What a successful `hashAndSave` has done: it took the first `2 ^ 30` bytes
of the stream, stored them in the file as by one `Write`, rewound the file,
and returns their SHA-256 in hexadecimal and their number. -/
theorem hashAndSave_of_ok (src : io.ReadCloser) (tmp : os.File) (hash : String) (size : Int)
    (body : io.ReadCloser) (tmp1 : os.File)
    (h : hashAndSave src tmp = (.ok (hash, size), body, tmp1)) :
    hash = hex.EncodeToString (sha256.Sum256 (src.rest.take (2 ^ 30))) ∧
    size = ((src.rest.take (2 ^ 30)).length : Int) ∧
    (tmp.Write (src.rest.take (2 ^ 30))).1.2 = none ∧
    tmp1 = { (tmp.Write (src.rest.take (2 ^ 30))).2 with pos := 0 } ∧
    tmp.syncErr = none ∧ tmp.seekErr = none := by
  have hc := io.CopyBuffer_eq (io.MultiWriter tmp sha256.New)
    (io.LimitReader src ((1 <<< 30 : Nat) : Int)) (32 * 1024) (by decide)
  unfold hashAndSave at h
  simp only at h
  generalize io.CopyBuffer (io.MultiWriter tmp sha256.New)
    (io.LimitReader src ((1 <<< 30 : Nat) : Int)) (32 * 1024) = out at hc h
  split at h
  · simp at h
  · rename_i herr
    obtain ⟨o1, o2, o3, o4⟩ := io.copyLoop_of_ok (32 * 1024) (by decide) _ _ _ _ out
      (by simp [io.MultiWriter, sha256.New]) (by simp [io.MultiWriter, sha256.New]) hc herr
    rw [limit_pending] at o1 o2 o3 o4
    simp only [io.MultiWriter] at o1 o2 o3 o4
    rw [os.Sync_eq] at h
    split at h
    · simp at h
    · rename_i tmpS hS
      simp only [Prod.mk.injEq, Option.map_eq_none'] at hS
      obtain ⟨hS1, hS2⟩ := hS
      rw [os.Seek_start] at h
      split at h
      · simp at h
      · rename_i n tmpK hK
        rw [o3, os.Write_syncErr] at hS1
        rw [← hS2, o3] at hK
        cases hsk : ((tmp.Write (List.take (2 ^ 30) src.rest)).2).seekErr with
        | some msg => rw [hsk] at hK; simp at hK
        | none =>
          rw [hsk] at hK
          simp only [Prod.mk.injEq, and_true, true_and] at hK
          simp only [Prod.mk.injEq, Except.ok.injEq] at h
          obtain ⟨⟨h1, h2⟩, _, h3⟩ := h
          refine ⟨?_, ?_, o2, ?_, hS1, hsk⟩
          · rw [← h1, o4, sha256.Sum_New_Write]
          · rw [← h2, o1]; exact Int.zero_add _
          · rw [← h3, ← hK.2]
            simp only [hsk]

/-- When no read fails, the device has room for the accepted bytes, and `Sync`
and `Seek` succeed, `hashAndSave` succeeds. -/
theorem hashAndSave_ok (src : io.ReadCloser) (tmp : os.File)
    (hr : readsSucceed src = true)
    (hw : writesSucceed tmp (min src.rest.length (2 ^ 30)) = true)
    (hs : tmp.syncErr = none) (hk : tmp.seekErr = none) :
    ∃ body, hashAndSave src tmp =
      (.ok (hex.EncodeToString (sha256.Sum256 (src.rest.take (2 ^ 30))),
          ((src.rest.take (2 ^ 30)).length : Int)), body,
        { (tmp.Write (src.rest.take (2 ^ 30))).2 with pos := 0 }) := by
  have hc := io.CopyBuffer_eq (io.MultiWriter tmp sha256.New)
    (io.LimitReader src ((1 <<< 30 : Nat) : Int)) (32 * 1024) (by decide)
  have hw2 : writesSucceed (io.MultiWriter tmp sha256.New).tmp
      (io.LimitReader src ((1 <<< 30 : Nat) : Int)).pending.length = true := by
    rw [limit_pending, List.length_take, Nat.min_comm]; exact hw
  obtain ⟨out1, ho1, herr1⟩ := io.copyLoop_ok (32 * 1024) (by decide) _
    (io.LimitReader src ((1 <<< 30 : Nat) : Int)) (io.MultiWriter tmp sha256.New) 0
    (Nat.lt_succ_self _) hr hw2
  rw [hc] at ho1
  have herr : (io.CopyBuffer (io.MultiWriter tmp sha256.New)
    (io.LimitReader src ((1 <<< 30 : Nat) : Int)) (32 * 1024)).err = none := by
    rw [Option.some.inj ho1]; exact herr1
  obtain ⟨o1, o2, o3, o4⟩ := io.copyLoop_of_ok (32 * 1024) (by decide) _ _ _ _ _
      (by simp [io.MultiWriter, sha256.New]) (by simp [io.MultiWriter, sha256.New]) hc herr
  rw [limit_pending] at o1 o2 o3 o4
  have e1 : (io.MultiWriter tmp sha256.New).tmp = tmp := rfl
  have e2 : (io.MultiWriter tmp sha256.New).hasher = sha256.New := rfl
  rw [e1] at o2 o3
  rw [e2] at o4
  refine ⟨(io.CopyBuffer (io.MultiWriter tmp sha256.New)
    (io.LimitReader src ((1 <<< 30 : Nat) : Int)) (32 * 1024)).src.R.Close, ?_⟩
  unfold hashAndSave
  simp only
  generalize io.CopyBuffer (io.MultiWriter tmp sha256.New)
    (io.LimitReader src ((1 <<< 30 : Nat) : Int)) (32 * 1024) = out at herr o1 o3 o4
  obtain ⟨written, err, src1, ⟨tmpd, hasherd⟩⟩ := out
  simp only at herr o1 o3 o4
  subst herr o1 o3 o4
  simp only [os.Sync_eq, os.Write_syncErr, hs, Option.map_none']
  simp only [os.Seek_start, os.Write_seekErr, hk]
  rw [sha256.Sum_New_Write, Int.zero_add, os.Write_syncErr, hs]

end modules.handler

theorem handler_hashAndSave_eq (src : io.ReadCloser) (tmp : os.File) :
    handler.hashAndSave src tmp = modules.handler.hashAndSave src tmp := rfl

namespace filepath

theorem takeWhile_append_left {α : Type} (p : α → Bool) (l1 l2 : List α)
    (h : ∀ a ∈ l1, p a = true) : (l1 ++ l2).takeWhile p = l1 ++ l2.takeWhile p := by
  induction l1 with
  | nil => rfl
  | cons a t ih =>
    have ha : p a = true := h a (List.mem_cons_self _ _)
    simp only [List.cons_append, List.takeWhile_cons, ha, if_true]
    rw [ih (fun b hb => h b (List.mem_cons_of_mem _ hb))]

theorem takeWhile_all {α : Type} (p : α → Bool) (l : List α) (h : ∀ a ∈ l, p a = true) :
    l.takeWhile p = l := by
  have := takeWhile_append_left p l [] h
  simpa using this

theorem dropWhile_all {α : Type} (p : α → Bool) (l : List α) (h : ∀ a ∈ l, p a = true) :
    l.dropWhile p = [] := by
  induction l with
  | nil => rfl
  | cons a t ih =>
    have ha : p a = true := h a (List.mem_cons_self _ _)
    simp only [List.dropWhile_cons, ha, if_true]
    exact ih (fun b hb => h b (List.mem_cons_of_mem _ hb))

/-- The last element of a path that ends in a separator-free, non-empty segment
after a separator is that segment. -/
theorem Base_segment (pre seg : String) (hne : seg.data ≠ []) (hs : ∀ c ∈ seg.data, c ≠ '/') :
    Base (pre ++ "/" ++ seg) = seg := by
  have hdata : (pre ++ "/" ++ seg).data = pre.data ++ '/' :: seg.data := by
    simp [String.data_append]
  have hpath : pre ++ "/" ++ seg ≠ "" := by
    intro h
    have := congrArg String.data h
    rw [hdata] at this
    simp at this
  obtain ⟨c, t, hct⟩ : ∃ c t, seg.data.reverse = c :: t := by
    cases hr : seg.data.reverse with
    | nil => simp at hr; exact absurd hr hne
    | cons c t => exact ⟨c, t, rfl⟩
  have hc : c ≠ '/' := hs c (by
    have : c ∈ seg.data.reverse := by rw [hct]; exact List.mem_cons_self _ _
    simpa using this)
  have hrev : (pre.data ++ '/' :: seg.data).reverse = seg.data.reverse ++ '/' :: pre.data.reverse := by
    simp
  have hdrop : ((pre.data ++ '/' :: seg.data).reverse.dropWhile (· = Separator)) =
      (pre.data ++ '/' :: seg.data).reverse := by
    rw [hrev, hct]
    simp [List.dropWhile_cons, Separator, hc]
  have htake : ((pre.data ++ '/' :: seg.data).reverse.takeWhile (· ≠ Separator)) =
      seg.data.reverse := by
    rw [hrev, takeWhile_append_left]
    · simp [Separator]
    · intro a ha
      have : a ≠ '/' := hs a (by simpa using ha)
      simp [Separator, this]
  unfold Base
  simp only [hpath, if_false, hdata, hdrop, List.reverse_reverse, htake]
  simp [hne]

theorem foldl_segment (l : List Char) (acc : List Char) :
    l.foldl (fun seg c => if c = '/' then [] else seg ++ [c]) acc =
      if '/' ∈ l then (l.reverse.takeWhile (· ≠ '/')).reverse else acc ++ l := by
  induction l using List.reverseRecOn with
  | nil => simp
  | append_singleton t c ih =>
    rw [List.foldl_append, List.foldl_cons, List.foldl_nil, ih]
    by_cases hc : c = '/'
    · subst hc
      simp
    · by_cases ht : '/' ∈ t
      · simp [hc, ht, List.takeWhile_cons]
      · have hne : ¬ ('/' = c) := fun h => hc h.symm
        simp [hc, ht, hne]

/-- For a non-empty path that does not end in a separator, `Base` is the text
after the final separator. -/
theorem Base_eq_textAfterFinalSlash (path : String) (t : List Char) (c : Char)
    (hp : path.data = t ++ [c]) (hc : c ≠ '/') :
    Base path = textAfterFinalSlash path := by
  have hpath : path ≠ "" := by
    intro h
    have := congrArg String.data h
    rw [hp] at this
    simp at this
  have hdrop : (path.data.reverse.dropWhile (· = Separator)) = path.data.reverse := by
    rw [hp]
    simp [List.dropWhile_cons, Separator, hc]
  have hne : (path.data.reverse.takeWhile (· ≠ Separator)).reverse ≠ [] := by
    rw [hp]
    simp [List.takeWhile_cons, Separator, hc]
  unfold Base textAfterFinalSlash
  simp only [hpath, if_false, hdrop, List.reverse_reverse, hne]
  rw [foldl_segment]
  by_cases hs : '/' ∈ path.data
  · simp [hs, Separator]
  · simp only [hs, if_false, List.nil_append]
    congr 1
    rw [takeWhile_all, List.reverse_reverse]
    intro a ha
    have : a ≠ '/' := fun h => hs (by rw [← h]; simpa using ha)
    simp [Separator, this]

theorem cleanLoop_nil (rooted : Bool) (n : Nat) (out : List Char) (dotdot : Nat) :
    cleanLoop rooted n [] out dotdot = out := by
  cases n <;> simp [cleanLoop]

/-- Cleaning `raw/` followed by a non-empty element without separator or dot
changes nothing. -/
theorem Clean_raw (id : String) (hne : id.data ≠ [])
    (hs : ∀ c ∈ id.data, c ≠ '/' ∧ c ≠ '.') : Clean ("raw/" ++ id) = "raw/" ++ id := by
  have hdata : ("raw/" ++ id).data = 'r' :: 'a' :: 'w' :: '/' :: id.data := by
    simp [String.data_append]
  have hpath : "raw/" ++ id ≠ "" := by
    intro h
    have := congrArg String.data h
    rw [hdata] at this
    simp at this
  have hlen : ("raw/" ++ id).length = id.data.length + 1 + 1 + 1 + 1 := by
    show ("raw/" ++ id).data.length = _
    rw [hdata]
    rfl
  obtain ⟨c, t, hct⟩ : ∃ c t, id.data = c :: t := by
    cases hd : id.data with
    | nil => exact absurd hd hne
    | cons c t => exact ⟨c, t, rfl⟩
  have hc := hs c (by rw [hct]; exact List.mem_cons_self _ _)
  have hdw : (c :: t).dropWhile (· ≠ Separator) = [] := by
    apply dropWhile_all
    intro a ha
    have := (hs a (by rw [hct]; exact ha)).1
    simp [Separator, this]
  have htw : (c :: t).takeWhile (· ≠ Separator) = c :: t := by
    apply takeWhile_all
    intro a ha
    have := (hs a (by rw [hct]; exact ha)).1
    simp [Separator, this]
  have hloop : cleanLoop false (id.data.length + 1 + 1 + 1 + 1)
      ('r' :: 'a' :: 'w' :: '/' :: id.data) [] 0 = 'r' :: 'a' :: 'w' :: '/' :: id.data := by
    rw [hct]
    generalize (c :: t).length + 1 = n
    have h1 : ¬ (c = '/') := hc.1
    have h2 : ¬ (c = '.') := hc.2
    simp only [Separator] at hdw htw
    simp only [cleanLoop, Separator, Char.reduceEq, if_false, false_and, List.length_nil,
      Bool.not_false, ne_eq, not_true_eq_false, and_false, or_false, Bool.false_eq_true,
      List.nil_append, List.takeWhile_cons, List.dropWhile_cons, not_false_eq_true,
      decide_True, decide_False, if_true, List.takeWhile_nil, h1, h2, hdw, htw]
    rw [cleanLoop_nil]
    simp
  unfold Clean
  simp only [hpath, if_false, hdata, hlen, List.head?_cons, Separator]
  simp only [Option.some.injEq, Char.reduceEq, decide_False, Bool.false_eq_true, if_false, hloop]
  simp only [reduceCtorEq, if_false]
  apply String.ext
  simp [hdata]

theorem Join_raw (id : String) (hne : id.data ≠ [])
    (hs : ∀ c ∈ id.data, c ≠ '/' ∧ c ≠ '.') : Join ["raw", id] = "raw/" ++ id := by
  have h : Join ["raw", id] = Clean ("raw/" ++ id) := by
    unfold Join
    have hd : (["raw", id].dropWhile (· = "")) = ["raw", id] := by
      simp [List.dropWhile_cons]
    rw [hd]
    simp only [String.intercalate, String.intercalate.go, Separator]
    congr 1
  rw [h, Clean_raw id hne hs]

end filepath

theorem isCanonicalUUID_chars (id : String) (h : isCanonicalUUID id = true) :
    id.data ≠ [] ∧ ∀ c ∈ id.data, c ≠ '/' ∧ c ≠ '.' := by
  unfold isCanonicalUUID at h
  simp only [Bool.and_eq_true, beq_iff_eq, List.all_eq_true] at h
  obtain ⟨hl, hall⟩ := h
  constructor
  · intro hnil
    simp [String.length, hnil] at hl
  · intro c hc
    have hm := hall c hc
    constructor
    · rintro rfl
      revert hm
      decide
    · rintro rfl
      revert hm
      decide

namespace os

theorem createTempLoop_spec (pfx sfx : String) :
    ∀ (n : Nat) (σ : World),
      (∃ err k, createTempLoop pfx sfx n σ = (.error err, { σ with randPos := k })) ∨
      (∃ name k, name ∉ σ.files ∧ createTempLoop pfx sfx n σ =
        (.ok ⟨name, [], 0, σ.space, σ.syncErr, σ.seekErr⟩,
          { σ with randPos := k, files := σ.files ++ [name] })) := by
  intro n
  induction n with
  | zero => intro σ; exact Or.inl ⟨_, σ.randPos, rfl⟩
  | succ n ih =>
    intro σ
    rw [createTempLoop]
    by_cases hex : pfx ++ σ.rand σ.randPos ++ sfx ∈ σ.files
    · simp only [hex, if_true]
      rcases ih { σ with randPos := σ.randPos + 1 } with ⟨err, k, h⟩ | ⟨name, k, hn, h⟩
      · exact Or.inl ⟨err, k, h⟩
      · exact Or.inr ⟨name, k, hn, h⟩
    · simp only [hex, if_false]
      cases ho : σ.openErr with
      | some msg => exact Or.inl ⟨_, σ.randPos + 1, rfl⟩
      | none => exact Or.inr ⟨_, σ.randPos + 1, hex, rfl⟩

theorem Remove_created (σ : World) (name : String) (hn : name ∉ σ.files)
    (ρ : World) (hρ : ρ.files = σ.files ++ [name]) :
    (Remove name ρ).2 = { ρ with files := σ.files } := by
  have hmem : name ∈ ρ.files := by rw [hρ]; simp
  unfold Remove
  simp only [hmem, if_true]
  congr 1
  rw [hρ, List.erase_append_right _ hn]
  simp

end os

namespace modules.handler

theorem createTempFile_spec (σ : World) :
    (∃ err k, createTempFile σ = (.error err, { σ with randPos := k })) ∨
    (∃ name k, name ∉ σ.files ∧ createTempFile σ =
      (.ok (⟨name, [], 0, σ.space, σ.syncErr, σ.seekErr⟩, fun ρ => (os.Remove name ρ).2),
        { σ with randPos := k, files := σ.files ++ [name] })) := by
  unfold createTempFile os.CreateTemp
  rcases os.createTempLoop_spec (σ.tempDir ++ "/" ++ (os.patternParts "upload-*").1)
    (os.patternParts "upload-*").2 10000 σ with ⟨err, k, h⟩ | ⟨name, k, hn, h⟩
  · exact Or.inl ⟨err, k, by simp only [h]⟩
  · exact Or.inr ⟨name, k, hn, by simp only [h, os.File.Name]⟩

end modules.handler

namespace modules.s3

theorem UploadFile_eq (u : Uploader) (file : os.File) (σ : World) :
    u.UploadFile file σ =
      (match σ.store ⟨u.bucket, filepath.Join ["raw", σ.uuid σ.uuidPos],
          file.data.drop file.pos⟩ with
        | .error msg => .error (Err.other msg)
        | .ok loc => .ok loc,
       { σ with uuidPos := σ.uuidPos + 1,
                puts := σ.puts ++ [⟨u.bucket, filepath.Join ["raw", σ.uuid σ.uuidPos],
                  file.data.drop file.pos⟩] }) := by
  unfold Uploader.UploadFile manager.Upload uuid.NewString
  simp only
  cases σ.store ⟨u.bucket, filepath.Join ["raw", σ.uuid σ.uuidPos], file.data.drop file.pos⟩ <;>
    rfl

end modules.s3

namespace handler

theorem uploadToS3_eq (h : UploadHandler) (file : os.File) (σ : World) :
    h.uploadToS3 file σ = (modules.s3.Uploader.mk h.Bucket).UploadFile file σ := rfl

theorem ServeHTTP_eq (h : UploadHandler) (w : http.ResponseWriter) (r : http.Request)
    (σ : World) :
    h.ServeHTTP w r σ =
      (modules.handler.UploadHandler.mk ⟨h.Bucket⟩).ServeHTTP w r σ := rfl

end handler

namespace http

theorem Error_codes (w : ResponseWriter) (msg : String) (code : Nat) :
    (Error w msg code).codes = w.codes ++ [code] := by
  simp [Error, ResponseWriter.Write, ResponseWriter.WriteHeader]

theorem Error_body (w : ResponseWriter) (msg : String) (code : Nat) :
    (Error w msg code).body = w.body ++ [Payload.text (msg ++ "\n")] := by
  simp [Error, ResponseWriter.Write, ResponseWriter.WriteHeader]

end http

namespace modules.handler

theorem respondJSON_codes (w : http.ResponseWriter) (location hash : String) (size : Int)
    (hw : w.codes = []) : (respondJSON w location hash size).codes = [200] := by
  simp [respondJSON, http.ResponseWriter.Write, http.ResponseWriter.WriteHeader, hw,
    http.StatusOK]

theorem respondJSON_body (w : http.ResponseWriter) (location hash : String) (size : Int) :
    (respondJSON w location hash size).body = w.body ++ [http.Payload.json [
      ("file_id", json.Value.str (filepath.Base location)),
      ("size", json.Value.num size),
      ("sha256", json.Value.str hash),
      ("location", json.Value.str location)]] := by
  simp only [respondJSON, http.ResponseWriter.Write]
  split_ifs <;> rfl

theorem validatePost_eq_none (r : http.Request) :
    validatePost r = none ↔ r.Method = "POST" := by
  unfold validatePost
  simp [http.MethodPost]

theorem ServeHTTP_notPost (h : UploadHandler) (w : http.ResponseWriter) (r : http.Request)
    (σ : World) (hm : r.Method ≠ "POST") :
    h.ServeHTTP w r σ = (http.Error w "use POST method" 405, r, σ) := by
  unfold UploadHandler.ServeHTTP validatePost
  simp only [http.MethodPost, hm, ne_eq, not_false_eq_true, if_true]
  rfl

theorem ServeHTTP_tmpErr (h : UploadHandler) (w : http.ResponseWriter) (r : http.Request)
    (σ σ1 : World) (err : Err) (hm : r.Method = "POST")
    (hc : createTempFile σ = (.error err, σ1)) :
    h.ServeHTTP w r σ = (http.Error w ("tmp file: " ++ err.Error) 500, r, σ1) := by
  unfold UploadHandler.ServeHTTP
  rw [(validatePost_eq_none r).mpr hm, hc]
  rfl

theorem ServeHTTP_saveErr (h : UploadHandler) (w : http.ResponseWriter) (r : http.Request)
    (σ σ1 : World) (tmp tmp1 : os.File) (cleanup : World → World) (err : Err)
    (body : io.ReadCloser) (hm : r.Method = "POST")
    (hc : createTempFile σ = (.ok (tmp, cleanup), σ1))
    (hs : hashAndSave r.Body tmp = (.error err, body, tmp1)) :
    h.ServeHTTP w r σ =
      (http.Error w ("save: " ++ err.Error) 400, { r with Body := body }, cleanup σ1) := by
  unfold UploadHandler.ServeHTTP
  rw [(validatePost_eq_none r).mpr hm, hc]
  simp only [hs]
  rfl

theorem ServeHTTP_s3Err (h : UploadHandler) (w : http.ResponseWriter) (r : http.Request)
    (σ σ1 σ2 : World) (tmp tmp1 : os.File) (cleanup : World → World) (err : Err)
    (body : io.ReadCloser) (hash : String) (size : Int) (hm : r.Method = "POST")
    (hc : createTempFile σ = (.ok (tmp, cleanup), σ1))
    (hs : hashAndSave r.Body tmp = (.ok (hash, size), body, tmp1))
    (hu : h.s3Uploader.UploadFile tmp1 σ1 = (.error err, σ2)) :
    h.ServeHTTP w r σ =
      (http.Error w ("s3: " ++ err.Error) 502, { r with Body := body }, cleanup σ2) := by
  unfold UploadHandler.ServeHTTP
  rw [(validatePost_eq_none r).mpr hm, hc]
  simp only [hs, hu]
  rfl

theorem ServeHTTP_ok (h : UploadHandler) (w : http.ResponseWriter) (r : http.Request)
    (σ σ1 σ2 : World) (tmp tmp1 : os.File) (cleanup : World → World) (location : String)
    (body : io.ReadCloser) (hash : String) (size : Int) (hm : r.Method = "POST")
    (hc : createTempFile σ = (.ok (tmp, cleanup), σ1))
    (hs : hashAndSave r.Body tmp = (.ok (hash, size), body, tmp1))
    (hu : h.s3Uploader.UploadFile tmp1 σ1 = (.ok location, σ2)) :
    h.ServeHTTP w r σ =
      (respondJSON w location hash size, { r with Body := body }, cleanup σ2) := by
  unfold UploadHandler.ServeHTTP
  rw [(validatePost_eq_none r).mpr hm, hc]
  simp only [hs, hu]

end modules.handler

namespace os

theorem overwrite_empty (q : List UInt8) : overwrite [] 0 q = q := by
  unfold overwrite
  split_ifs with h
  · exact h.symm
  · simp

end os

namespace modules.handler

/-- The five ways through `ServeHTTP`, each with the response, the request and
the world it ends in; `B` stands for the accepted bytes `r.Body.rest.take (2 ^ 30)`. -/
theorem ServeHTTP_cases (h : UploadHandler) (w : http.ResponseWriter) (r : http.Request)
    (σ : World) :
    (r.Method ≠ "POST" ∧ h.ServeHTTP w r σ = (http.Error w "use POST method" 405, r, σ)) ∨
    (r.Method = "POST" ∧ ∃ err k, (∃ σ1, createTempFile σ = (.error err, σ1)) ∧
      h.ServeHTTP w r σ =
        (http.Error w ("tmp file: " ++ err.Error) 500, r, { σ with randPos := k })) ∨
    (r.Method = "POST" ∧ ∃ tmp cl σ1 err body tmp1 k,
      createTempFile σ = (.ok (tmp, cl), σ1) ∧
      hashAndSave r.Body tmp = (.error err, body, tmp1) ∧
      h.ServeHTTP w r σ =
        (http.Error w ("save: " ++ err.Error) 400, { r with Body := body },
          { σ with randPos := k })) ∨
    (r.Method = "POST" ∧ ∃ tmp cl σ1 body tmp1 k msg,
      createTempFile σ = (.ok (tmp, cl), σ1) ∧
      hashAndSave r.Body tmp =
        (.ok (hex.EncodeToString (sha256.Sum256 (r.Body.rest.take (2 ^ 30))),
          ((r.Body.rest.take (2 ^ 30)).length : Int)), body, tmp1) ∧
      σ.store ⟨h.s3Uploader.bucket, filepath.Join ["raw", σ.uuid σ.uuidPos],
        r.Body.rest.take (2 ^ 30)⟩ = .error msg ∧
      h.ServeHTTP w r σ =
        (http.Error w ("s3: " ++ msg) 502, { r with Body := body },
          { σ with randPos := k, uuidPos := σ.uuidPos + 1,
                   puts := σ.puts ++ [⟨h.s3Uploader.bucket,
                     filepath.Join ["raw", σ.uuid σ.uuidPos], r.Body.rest.take (2 ^ 30)⟩] })) ∨
    (r.Method = "POST" ∧ ∃ tmp cl σ1 body tmp1 k location,
      createTempFile σ = (.ok (tmp, cl), σ1) ∧
      hashAndSave r.Body tmp =
        (.ok (hex.EncodeToString (sha256.Sum256 (r.Body.rest.take (2 ^ 30))),
          ((r.Body.rest.take (2 ^ 30)).length : Int)), body, tmp1) ∧
      σ.store ⟨h.s3Uploader.bucket, filepath.Join ["raw", σ.uuid σ.uuidPos],
        r.Body.rest.take (2 ^ 30)⟩ = .ok location ∧
      h.ServeHTTP w r σ =
        (respondJSON w location
            (hex.EncodeToString (sha256.Sum256 (r.Body.rest.take (2 ^ 30))))
            ((r.Body.rest.take (2 ^ 30)).length : Int),
          { r with Body := body },
          { σ with randPos := k, uuidPos := σ.uuidPos + 1,
                   puts := σ.puts ++ [⟨h.s3Uploader.bucket,
                     filepath.Join ["raw", σ.uuid σ.uuidPos], r.Body.rest.take (2 ^ 30)⟩] })) := by
  by_cases hm : r.Method = "POST"
  swap
  · exact Or.inl ⟨hm, ServeHTTP_notPost h w r σ hm⟩
  right
  rcases createTempFile_spec σ with ⟨err, k, hc⟩ | ⟨name, k, hn, hc⟩
  · exact Or.inl ⟨hm, err, k, ⟨_, hc⟩, ServeHTTP_tmpErr h w r σ _ err hm hc⟩
  right
  have hrem : ∀ ρ : World, ρ.files = σ.files ++ [name] →
      (os.Remove name ρ).2 = { ρ with files := σ.files } :=
    fun ρ hρ => os.Remove_created σ name hn ρ hρ
  rcases hs : hashAndSave r.Body ⟨name, [], 0, σ.space, σ.syncErr, σ.seekErr⟩ with
    ⟨res, body, tmp1⟩
  cases res with
  | error err =>
    refine Or.inl ⟨hm, _, _, _, err, body, tmp1, k, hc, hs, ?_⟩
    rw [ServeHTTP_saveErr h w r σ _ _ tmp1 _ err body hm hc hs]
    simp only [hrem]
  | ok hv =>
    obtain ⟨hash, size⟩ := hv
    right
    obtain ⟨h1, h2, _, h4, _, _⟩ := hashAndSave_of_ok _ _ _ _ _ _ hs
    subst h1 h2
    have hdata : tmp1.data.drop tmp1.pos = r.Body.rest.take (2 ^ 30) := by
      rw [h4]
      simp only [List.drop_zero]
      rw [os.File_Write_of_ok _ _ (by assumption)]
      exact os.overwrite_empty _
    have hu := modules.s3.UploadFile_eq h.s3Uploader tmp1
      { σ with randPos := k, files := σ.files ++ [name] }
    simp only [hdata] at hu
    cases hst : σ.store ⟨h.s3Uploader.bucket, filepath.Join ["raw", σ.uuid σ.uuidPos],
        r.Body.rest.take (2 ^ 30)⟩ with
    | error msg =>
      rw [hst] at hu
      refine Or.inl ⟨hm, _, _, _, body, tmp1, k, msg, hc, hs, rfl, ?_⟩
      rw [ServeHTTP_s3Err h w r σ _ _ _ tmp1 _ _ body _ _ hm hc hs hu]
      simp only [hrem, Err.Error]
    | ok location =>
      rw [hst] at hu
      refine Or.inr ⟨hm, _, _, _, body, tmp1, k, location, hc, hs, rfl, ?_⟩
      rw [ServeHTTP_ok h w r σ _ _ _ tmp1 _ _ body _ _ hm hc hs hu]
      simp only [hrem]

end modules.handler

set_option maxRecDepth 100000 in
theorem hello_digest : hex.EncodeToString (sha256.Sum256 helloBytes) =
    "2cf24dba5fb0a30e26e83b2ac5b9e29e1b161e5c1fa7425e73043362938b9824" := by decide

namespace modules.handler

/-- A POST whose temporary file is created and whose reads, writes, `Sync` and
`Seek` all succeed reaches the upload: the first `2 ^ 30` bytes of the body are
sent to the store under the generated key, and the response is the JSON result
or the `502` error according to the store's answer. -/
theorem ServeHTTP_accepts (h : UploadHandler) (w : http.ResponseWriter) (r : http.Request)
    (σ : World) (tmp : os.File) (cl : World → World) (hm : r.Method = "POST")
    (hc : (createTempFile σ).1 = .ok (tmp, cl))
    (hr : readsSucceed r.Body = true)
    (hw : writesSucceed tmp (min r.Body.rest.length (2 ^ 30)) = true)
    (hs : tmp.syncErr = none) (hk : tmp.seekErr = none) :
    (h.ServeHTTP w r σ).2.2.puts = σ.puts ++ [⟨h.s3Uploader.bucket,
        filepath.Join ["raw", σ.uuid σ.uuidPos], r.Body.rest.take (2 ^ 30)⟩] ∧
    (∀ location, σ.store ⟨h.s3Uploader.bucket, filepath.Join ["raw", σ.uuid σ.uuidPos],
        r.Body.rest.take (2 ^ 30)⟩ = .ok location →
      (h.ServeHTTP w r σ).1 = respondJSON w location
        (hex.EncodeToString (sha256.Sum256 (r.Body.rest.take (2 ^ 30))))
        ((r.Body.rest.take (2 ^ 30)).length : Int)) ∧
    (∀ msg, σ.store ⟨h.s3Uploader.bucket, filepath.Join ["raw", σ.uuid σ.uuidPos],
        r.Body.rest.take (2 ^ 30)⟩ = .error msg →
      (h.ServeHTTP w r σ).1 = http.Error w ("s3: " ++ msg) 502) := by
  rcases ServeHTTP_cases h w r σ with ⟨hn, _⟩ | ⟨_, err, k, ⟨σ1, hc1⟩, _⟩ |
    ⟨_, tmp2, cl2, σ1, err, body, tmp1, k, hc2, hs2, _⟩ |
    ⟨_, tmp2, cl2, σ1, body, tmp1, k, msg, hc2, hs2, hst, hout⟩ |
    ⟨_, tmp2, cl2, σ1, body, tmp1, k, location, hc2, hs2, hst, hout⟩
  · exact absurd hm hn
  · rw [hc1] at hc; simp at hc
  · rw [hc2] at hc
    simp only [Except.ok.injEq, Prod.mk.injEq] at hc
    rw [hc.1] at hs2
    obtain ⟨body2, hok⟩ := hashAndSave_ok r.Body tmp hr hw hs hk
    rw [hok] at hs2
    simp at hs2
  · rw [hout]
    refine ⟨rfl, ?_, ?_⟩
    · intro location hl
      rw [hst] at hl
      simp at hl
    · intro msg2 hl
      rw [hst] at hl
      simp only [Except.error.injEq] at hl
      rw [hl]
  · rw [hout]
    refine ⟨rfl, ?_, ?_⟩
    · intro location2 hl
      rw [hst] at hl
      simp only [Except.ok.injEq] at hl
      rw [hl]
    · intro msg hl
      rw [hst] at hl
      simp at hl

end modules.handler

theorem quietWorld_createTempFile :
    (modules.handler.createTempFile quietWorld).1 =
      .ok (emptyTemp, fun ρ => (os.Remove "/tmp/upload-0" ρ).2) := by
  rfl

theorem oversizedPost_long : 2 ^ 30 < oversizedPost.Body.rest.length := by
  show 2 ^ 30 < (List.replicate (2 ^ 30 + 1) (0 : UInt8)).length
  rw [List.length_replicate]
  exact Nat.lt_succ_self _

namespace http

theorem Header_Get_Set (h : Header) (key value : String) :
    Header.Get (Header.Set h key value) key = value := by
  have hfind : List.find? (fun kv : String × String => decide (kv.1 = key))
      (List.filter (fun kv : String × String => decide (kv.1 ≠ key)) h ++ [(key, value)]) =
      some (key, value) := by
    induction h with
    | nil => simp
    | cons a t ih =>
      by_cases ha : a.1 = key
      · simp only [List.filter_cons, ha, ne_eq, not_true_eq_false, decide_False,
          Bool.false_eq_true, if_false]
        exact ih
      · simp only [List.filter_cons, ha, ne_eq, not_false_eq_true, decide_True, if_true,
          List.cons_append, List.find?_cons, decide_False]
        exact ih
  unfold Header.Get Header.Set Header.Del
  rw [hfind]

end http

theorem respondJSON_eq (w : http.ResponseWriter) (location hash : String) (size : Int) :
    handler.respondJSON w location hash size = modules.handler.respondJSON w location hash size :=
  rfl

theorem String_append_left_cancel (a b c : String) (h : a ++ b = a ++ c) : b = c := by
  have hd := congrArg String.data h
  simp only [String.data_append] at hd
  exact String.ext (List.append_cancel_left hd)

namespace modules.handler

/-- A request answered with status 200 on a fresh writer went through all the
stages: the store accepted the accepted bytes under the generated key. -/
theorem ServeHTTP_of_200 (h : UploadHandler) (w : http.ResponseWriter) (r : http.Request)
    (σ : World) (hw : w.codes = []) (hok : (h.ServeHTTP w r σ).1.codes = [200]) :
    ∃ k body location,
      σ.store ⟨h.s3Uploader.bucket, filepath.Join ["raw", σ.uuid σ.uuidPos],
        r.Body.rest.take (2 ^ 30)⟩ = .ok location ∧
      h.ServeHTTP w r σ =
        (respondJSON w location
            (hex.EncodeToString (sha256.Sum256 (r.Body.rest.take (2 ^ 30))))
            ((r.Body.rest.take (2 ^ 30)).length : Int),
          { r with Body := body },
          { σ with randPos := k, uuidPos := σ.uuidPos + 1,
                   puts := σ.puts ++ [⟨h.s3Uploader.bucket,
                     filepath.Join ["raw", σ.uuid σ.uuidPos], r.Body.rest.take (2 ^ 30)⟩] }) := by
  rcases ServeHTTP_cases h w r σ with ⟨_, e⟩ | ⟨_, _, _, _, e⟩ |
    ⟨_, _, _, _, _, _, _, _, _, _, e⟩ | ⟨_, _, _, _, _, _, _, _, _, _, _, e⟩ |
    ⟨_, _, _, _, body, _, k, location, _, _, hst, e⟩
  · rw [e, http.Error_codes, hw] at hok; exact absurd hok (by decide)
  · rw [e, http.Error_codes, hw] at hok; exact absurd hok (by decide)
  · rw [e, http.Error_codes, hw] at hok; exact absurd hok (by decide)
  · rw [e, http.Error_codes, hw] at hok; exact absurd hok (by decide)
  · exact ⟨k, body, location, hst, e⟩

theorem ServeHTTP_puts (h : UploadHandler) (w : http.ResponseWriter) (r : http.Request)
    (σ : World) :
    (h.ServeHTTP w r σ).2.2.puts = σ.puts ∨
    (h.ServeHTTP w r σ).2.2.puts = σ.puts ++ [⟨h.s3Uploader.bucket,
      filepath.Join ["raw", σ.uuid σ.uuidPos], r.Body.rest.take (2 ^ 30)⟩] := by
  rcases ServeHTTP_cases h w r σ with ⟨_, e⟩ | ⟨_, _, _, _, e⟩ |
    ⟨_, _, _, _, _, _, _, _, _, _, e⟩ | ⟨_, _, _, _, _, _, _, _, _, _, _, e⟩ |
    ⟨_, _, _, _, _, _, _, _, _, _, _, e⟩ <;> rw [e] <;> simp

end modules.handler

theorem Base_of_raw_key (pre id : String) (hid : isCanonicalUUID id = true) :
    filepath.Base (pre ++ "/" ++ ("raw/" ++ id)) = id := by
  obtain ⟨hne, hch⟩ := isCanonicalUUID_chars _ hid
  have e : pre ++ "/" ++ ("raw/" ++ id) = (pre ++ "/raw") ++ "/" ++ id := by
    apply String.ext
    simp [String.data_append]
  rw [e]
  exact filepath.Base_segment _ id hne (fun c hc => (hch c hc).1)

theorem quietWorld_location (input : s3.PutObjectInput) (location : String)
    (h : quietWorld.store input = .ok location) : ∃ pre, location = pre ++ "/" ++ input.Key := by
  refine ⟨"https://" ++ input.Bucket ++ ".s3.amazonaws.com", ?_⟩
  have e : quietWorld.store input =
      .ok ("https://" ++ input.Bucket ++ ".s3.amazonaws.com/" ++ input.Key) := rfl
  rw [e] at h
  simp only [Except.ok.injEq] at h
  rw [← h]
  apply String.ext
  simp [String.data_append]

theorem helloPost_status :
    (docsHandler.ServeHTTP freshWriter helloPost quietWorld).1.codes = [200] := by
  obtain ⟨_, h2, _⟩ := modules.handler.ServeHTTP_accepts docsHandler freshWriter
    helloPost quietWorld emptyTemp _ rfl quietWorld_createTempFile rfl rfl rfl rfl
  rw [h2 _ rfl]
  exact modules.handler.respondJSON_codes _ _ _ _ rfl

theorem quietWorld_store_injective (bucket key1 key2 : String) (body1 body2 : List UInt8)
    (location : String) (h1 : quietWorld.store ⟨bucket, key1, body1⟩ = .ok location)
    (h2 : quietWorld.store ⟨bucket, key2, body2⟩ = .ok location) : key1 = key2 := by
  have e1 : quietWorld.store ⟨bucket, key1, body1⟩ =
      .ok ("https://" ++ bucket ++ ".s3.amazonaws.com/" ++ key1) := rfl
  have e2 : quietWorld.store ⟨bucket, key2, body2⟩ =
      .ok ("https://" ++ bucket ++ ".s3.amazonaws.com/" ++ key2) := rfl
  rw [e1] at h1
  rw [e2] at h2
  simp only [Except.ok.injEq] at h1 h2
  exact String_append_left_cancel _ _ _ (h1.trans h2.symm)

set_option maxRecDepth 100000 in
theorem helloPost_second_status :
    (docsHandler.ServeHTTP freshWriter helloPost
      (docsHandler.ServeHTTP freshWriter helloPost quietWorld).2.2).1.codes = [200] := by
  rfl

/-! ## The claims of the specification -/

set_option maxRecDepth 100000 in
/-- C1, counterexample: every read of `hello` succeeds and the file takes all
five bytes, but `Sync` fails, and `hashAndSave` returns that error instead of a
digest. -/
theorem C1_counterexample_sync_failure :
    helloBytes.length ≤ 2 ^ 30 ∧ readsSucceed helloBody = true ∧
      writesSucceed unsyncedTemp helloBytes.length = true ∧
      (modules.handler.hashAndSave helloBody unsyncedTemp).2.2.data = helloBytes ∧
      (modules.handler.hashAndSave helloBody unsyncedTemp).1 =
        .error (Err.other "input/output error") :=
  ⟨by decide, by decide, by decide, rfl, rfl⟩

/-- C1: for every body `B` of at most `2 ^ 30` bytes and every script of
successful reads that hands it over (any chunk lengths, through the 32 KiB
buffer), when the device takes `len(B)` bytes and `Sync` and `Seek` succeed,
`hashAndSave` returns no error, the size `len(B)` and as digest the lower-case
hexadecimal encoding of `sha256.Sum256(B)`, which has 64 characters out of
`0-9a-f`; the script does not occur in the result. -/
theorem C1_hashAndSave_digest_and_size (B : List UInt8) (script : List io.ReadStep)
    (closed : Bool) (tmp : os.File) (hB : B.length ≤ 2 ^ 30)
    (hr : readsSucceed ⟨B, script, closed⟩ = true)
    (hw : writesSucceed tmp B.length = true)
    (hs : tmp.syncErr = none) (hk : tmp.seekErr = none) :
    (modules.handler.hashAndSave ⟨B, script, closed⟩ tmp).1 =
        .ok (hex.EncodeToString (sha256.Sum256 B), (B.length : Int)) ∧
      (handler.hashAndSave ⟨B, script, closed⟩ tmp).1 =
        .ok (hex.EncodeToString (sha256.Sum256 B), (B.length : Int)) ∧
      (hex.EncodeToString (sha256.Sum256 B)).length = 64 ∧
      ∀ c ∈ (hex.EncodeToString (sha256.Sum256 B)).data, c ∈ "0123456789abcdef".data := by
  have hmin : min B.length (2 ^ 30) = B.length := Nat.min_eq_left hB
  have htake : B.take (2 ^ 30) = B := List.take_of_length_le hB
  obtain ⟨body, h⟩ := modules.handler.hashAndSave_ok ⟨B, script, closed⟩ tmp hr
    (by rw [hmin]; exact hw) hs hk
  simp only [htake] at h
  refine ⟨by rw [h], by rw [handler_hashAndSave_eq, h], ?_, ?_⟩
  · rw [hex.EncodeToString_length, sha256.Sum256, sha256.checkSum_length]
  · exact hex.EncodeToString_chars _

/-- C1, worked instance: the body `hello`, read in pieces of two, zero and
three bytes, gives size 5 and the well-known SHA-256 digest of `hello`. -/
theorem C1_witness_hello :
    helloBytes.length ≤ 2 ^ 30 ∧ readsSucceed helloBody = true ∧
      writesSucceed emptyTemp helloBytes.length = true ∧
      (modules.handler.hashAndSave helloBody emptyTemp).1 =
        .ok ("2cf24dba5fb0a30e26e83b2ac5b9e29e1b161e5c1fa7425e73043362938b9824", 5) := by
  refine ⟨by decide, by decide, by decide, ?_⟩
  have h := (C1_hashAndSave_digest_and_size helloBytes
    [.data 2 false, .data 0 false, .data 3 true] false emptyTemp (by decide) (by decide)
    (by decide) rfl rfl).1
  rw [hello_digest] at h
  exact h

/-- C2: for every body `B`, handed over by any script of successful reads, and
every empty temporary file at offset zero on a device that takes the accepted
bytes and whose `Sync` and `Seek` succeed, `hashAndSave` returns no error and
leaves the file with exactly the first `min(len(B), 2 ^ 30)` bytes of `B` as
content and its offset at zero; the size returned is that byte count and the
digest returned is the SHA-256 of the file's content, which is what a reader
of the file from its offset sees. -/
theorem C2_hashAndSave_file_content (B : List UInt8) (script : List io.ReadStep)
    (closed : Bool) (tmp : os.File) (hd : tmp.data = []) (hp : tmp.pos = 0)
    (hr : readsSucceed ⟨B, script, closed⟩ = true)
    (hw : writesSucceed tmp (min B.length (2 ^ 30)) = true)
    (hs : tmp.syncErr = none) (hk : tmp.seekErr = none) :
    (modules.handler.hashAndSave ⟨B, script, closed⟩ tmp).2.2.data = B.take (2 ^ 30) ∧
      (modules.handler.hashAndSave ⟨B, script, closed⟩ tmp).2.2.pos = 0 ∧
      (modules.handler.hashAndSave ⟨B, script, closed⟩ tmp).1 =
        .ok (hex.EncodeToString (sha256.Sum256
              (modules.handler.hashAndSave ⟨B, script, closed⟩ tmp).2.2.data),
            ((min B.length (2 ^ 30) : Nat) : Int)) ∧
      (modules.handler.hashAndSave ⟨B, script, closed⟩ tmp).2.2.data.drop
          (modules.handler.hashAndSave ⟨B, script, closed⟩ tmp).2.2.pos = B.take (2 ^ 30) ∧
      handler.hashAndSave ⟨B, script, closed⟩ tmp =
        modules.handler.hashAndSave ⟨B, script, closed⟩ tmp := by
  obtain ⟨body, h⟩ := modules.handler.hashAndSave_ok ⟨B, script, closed⟩ tmp hr hw hs hk
  obtain ⟨_, _, hwr, _, _, _⟩ := modules.handler.hashAndSave_of_ok _ _ _ _ _ _ h
  have hdata : (tmp.Write (B.take (2 ^ 30))).2.data = B.take (2 ^ 30) := by
    rw [os.File_Write_of_ok _ _ hwr]
    simp only [hd, hp]
    exact os.overwrite_empty _
  have hlen : (B.take (2 ^ 30)).length = min B.length (2 ^ 30) := by
    rw [List.length_take, Nat.min_comm]
  simp only at h
  refine ⟨?_, ?_, ?_, ?_, handler_hashAndSave_eq _ _⟩
  · rw [h]; exact hdata
  · rw [h]
  · rw [h]; simp only [hdata, hlen]
  · rw [h]; simp only [hdata, List.drop_zero]

/-- C2, worked instance: `hello` copied into an empty temporary file. -/
theorem C2_witness_hello :
    emptyTemp.data = [] ∧ emptyTemp.pos = 0 ∧ readsSucceed helloBody = true ∧
      (modules.handler.hashAndSave helloBody emptyTemp).2.2.data = helloBytes ∧
      (modules.handler.hashAndSave helloBody emptyTemp).2.2.pos = 0 :=
  ⟨rfl, rfl, by decide,
    (C2_hashAndSave_file_content helloBytes [.data 2 false, .data 0 false, .data 3 true]
      false emptyTemp rfl rfl (by decide) (by decide) rfl rfl).1,
    (C2_hashAndSave_file_content helloBytes [.data 2 false, .data 0 false, .data 3 true]
      false emptyTemp rfl rfl (by decide) (by decide) rfl rfl).2.1⟩

/-- C3, counterexample: a POST whose body has `2 ^ 30 + 1` bytes, in a world
where nothing fails, is answered with status 200, not 400, and the uploader is
called once. -/
theorem C3_counterexample_oversized_accepted :
    oversizedPost.Method = "POST" ∧ 2 ^ 30 < oversizedPost.Body.rest.length ∧
      (docsHandler.ServeHTTP freshWriter oversizedPost quietWorld).1.codes = [200] ∧
      (docsHandler.ServeHTTP freshWriter oversizedPost quietWorld).2.2.puts.length = 1 ∧
      ¬ ((docsHandler.ServeHTTP freshWriter oversizedPost quietWorld).1.codes = [400] ∧
        (docsHandler.ServeHTTP freshWriter oversizedPost quietWorld).2.2.puts =
          quietWorld.puts) := by
  obtain ⟨h1, h2, _⟩ := modules.handler.ServeHTTP_accepts docsHandler freshWriter
    oversizedPost quietWorld emptyTemp _ rfl quietWorld_createTempFile rfl rfl rfl rfl
  have hcodes : (docsHandler.ServeHTTP freshWriter oversizedPost quietWorld).1.codes = [200] := by
    rw [h2 _ rfl]
    exact modules.handler.respondJSON_codes _ _ _ _ rfl
  refine ⟨rfl, oversizedPost_long, hcodes, ?_, ?_⟩
  · rw [h1]; rfl
  · intro hneg
    rw [hcodes] at hneg
    exact absurd hneg.1 (by decide)

/-- C3, amended: a POST whose body is longer than `2 ^ 30` bytes is not treated
as an error. When its temporary file is created and every read, write, `Sync`
and `Seek` succeeds, `ServeHTTP` (in both packages) never answers 400: it calls
the uploader exactly once, with exactly the first `2 ^ 30` bytes of the body,
and answers 200 with size `2 ^ 30` when the store accepts the object and 502
when the store refuses it. -/
theorem C3_oversized_body_is_truncated (h : modules.handler.UploadHandler)
    (w : http.ResponseWriter) (r : http.Request) (σ : World) (tmp : os.File)
    (cl : World → World) (hm : r.Method = "POST") (hlong : 2 ^ 30 < r.Body.rest.length)
    (hw0 : w.codes = [])
    (hc : (modules.handler.createTempFile σ).1 = .ok (tmp, cl))
    (hr : readsSucceed r.Body = true) (hw : writesSucceed tmp (2 ^ 30) = true)
    (hs : tmp.syncErr = none) (hk : tmp.seekErr = none) :
    (h.ServeHTTP w r σ).1.codes ≠ [400] ∧
      (r.Body.rest.take (2 ^ 30)).length = 2 ^ 30 ∧
      (h.ServeHTTP w r σ).2.2.puts = σ.puts ++ [⟨h.s3Uploader.bucket,
        filepath.Join ["raw", σ.uuid σ.uuidPos], r.Body.rest.take (2 ^ 30)⟩] ∧
      (∀ location, σ.store ⟨h.s3Uploader.bucket, filepath.Join ["raw", σ.uuid σ.uuidPos],
          r.Body.rest.take (2 ^ 30)⟩ = .ok location →
        (h.ServeHTTP w r σ).1.codes = [200] ∧
        ∃ o, (h.ServeHTTP w r σ).1.body = w.body ++ [http.Payload.json o] ∧
          o.get? "size" = some (json.Value.num (2 ^ 30))) ∧
      (∀ msg, σ.store ⟨h.s3Uploader.bucket, filepath.Join ["raw", σ.uuid σ.uuidPos],
          r.Body.rest.take (2 ^ 30)⟩ = .error msg →
        (h.ServeHTTP w r σ).1.codes = [502]) ∧
      (handler.UploadHandler.mk h.s3Uploader.bucket).ServeHTTP w r σ = h.ServeHTTP w r σ := by
  have hmin : min r.Body.rest.length (2 ^ 30) = 2 ^ 30 := by omega
  have hlen : (r.Body.rest.take (2 ^ 30)).length = 2 ^ 30 := by
    rw [List.length_take]; omega
  obtain ⟨h1, h2, h3⟩ := modules.handler.ServeHTTP_accepts h w r σ tmp cl hm hc hr
    (by rw [hmin]; exact hw) hs hk
  have hcodes : (h.ServeHTTP w r σ).1.codes = [200] ∨ (h.ServeHTTP w r σ).1.codes = [502] := by
    cases hst : σ.store ⟨h.s3Uploader.bucket, filepath.Join ["raw", σ.uuid σ.uuidPos],
        r.Body.rest.take (2 ^ 30)⟩ with
    | ok location => left; rw [h2 _ hst]; exact modules.handler.respondJSON_codes _ _ _ _ hw0
    | error msg => right; rw [h3 _ hst, http.Error_codes, hw0]; rfl
  refine ⟨?_, hlen, h1, ?_, ?_, ?_⟩
  · rcases hcodes with hc2 | hc2 <;> rw [hc2] <;> decide
  · intro location hst
    rw [h2 _ hst]
    refine ⟨modules.handler.respondJSON_codes _ _ _ _ hw0, _,
      modules.handler.respondJSON_body _ _ _ _, ?_⟩
    rw [hlen]
    rfl
  · intro msg hst
    rw [h3 _ hst, http.Error_codes, hw0]
    rfl
  · exact handler.ServeHTTP_eq _ w r σ

/-- C3, worked instance of the amended statement: the oversized POST in the
quiet world is answered with status 200. -/
theorem C3_witness_oversized :
    oversizedPost.Method = "POST" ∧ 2 ^ 30 < oversizedPost.Body.rest.length ∧
      (docsHandler.ServeHTTP freshWriter oversizedPost quietWorld).1.codes ≠ [400] :=
  ⟨rfl, oversizedPost_long,
    (C3_oversized_body_is_truncated docsHandler freshWriter oversizedPost quietWorld emptyTemp _
      rfl oversizedPost_long rfl quietWorld_createTempFile rfl rfl rfl rfl).1⟩

/-- C4: `validatePost` (in both packages) returns an error exactly when the
method is not the string `POST`; and for such a request `ServeHTTP` (in both
packages) makes one `WriteHeader` call, with 405, and has no other effect: the
world is unchanged (no temporary file, the uploader's call list and the
generators as before) and the request, its body included, is as it was. -/
theorem C4_wrong_method_rejected (h : modules.handler.UploadHandler)
    (h0 : handler.UploadHandler) (w : http.ResponseWriter) (r : http.Request) (σ : World) :
    ((modules.handler.validatePost r).isSome = true ↔ r.Method ≠ "POST") ∧
      ((handler.validatePost r).isSome = true ↔ r.Method ≠ "POST") ∧
      (r.Method ≠ "POST" →
        (h.ServeHTTP w r σ).1.codes = w.codes ++ [405] ∧
        (h.ServeHTTP w r σ).1.body = w.body ++ [http.Payload.text "use POST method\n"] ∧
        (h.ServeHTTP w r σ).2.1 = r ∧
        (h.ServeHTTP w r σ).2.2 = σ ∧
        h0.ServeHTTP w r σ = h.ServeHTTP w r σ) := by
  have hv : (modules.handler.validatePost r).isSome = true ↔ r.Method ≠ "POST" := by
    unfold modules.handler.validatePost
    simp [http.MethodPost]
  refine ⟨hv, hv, ?_⟩
  intro hm
  have e1 := modules.handler.ServeHTTP_notPost h w r σ hm
  have e2 : h0.ServeHTTP w r σ = (http.Error w "use POST method" 405, r, σ) := by
    rw [handler.ServeHTTP_eq]
    exact modules.handler.ServeHTTP_notPost _ w r σ hm
  rw [e1, e2]
  exact ⟨http.Error_codes _ _ _, http.Error_body _ _ _, rfl, rfl, rfl⟩

/-- C4, worked instance: the GET request is answered with 405 and the world is
left as it was. -/
theorem C4_witness_get :
    helloGet.Method ≠ "POST" ∧
      (docsHandler.ServeHTTP freshWriter helloGet quietWorld).1.codes = [405] ∧
      (docsHandler.ServeHTTP freshWriter helloGet quietWorld).2.1 = helloGet ∧
      (docsHandler.ServeHTTP freshWriter helloGet quietWorld).2.2 = quietWorld :=
  have hm : helloGet.Method ≠ "POST" := by decide
  have h := (C4_wrong_method_rejected docsHandler docsHandlerOld freshWriter helloGet
    quietWorld).2.2 hm
  ⟨hm, h.1, h.2.2.1, h.2.2.2.1⟩

/-- C5: for every POST request on a fresh response writer, `ServeHTTP` (in both
packages) runs temp-file creation, then `hashAndSave` on the file created, then
the upload of the file as `hashAndSave` left it, then `respondJSON`, and stops
at the first stage that fails, with exactly one status written: 500 when the
creation fails (request and body untouched, no upload), 400 when `hashAndSave`
fails (no upload), 502 when the upload fails (the body of the response holds
the error text only), and 200 with the JSON result when all three succeed, and
only then. -/
theorem C5_stage_order_and_status (h : modules.handler.UploadHandler)
    (w : http.ResponseWriter) (r : http.Request) (σ : World)
    (hm : r.Method = "POST") (hw : w.codes = []) :
    (handler.UploadHandler.mk h.s3Uploader.bucket).ServeHTTP w r σ = h.ServeHTTP w r σ ∧
    (h.ServeHTTP w r σ).1.codes.length = 1 ∧
    (∀ err σ1, modules.handler.createTempFile σ = (.error err, σ1) →
      (h.ServeHTTP w r σ).1.codes = [500] ∧
      (h.ServeHTTP w r σ).1.body = w.body ++ [http.Payload.text ("tmp file: " ++ err.Error ++ "\n")] ∧
      (h.ServeHTTP w r σ).2.1 = r ∧ (h.ServeHTTP w r σ).2.2.puts = σ.puts) ∧
    (∀ tmp cl σ1 err body tmp1, modules.handler.createTempFile σ = (.ok (tmp, cl), σ1) →
      modules.handler.hashAndSave r.Body tmp = (.error err, body, tmp1) →
      (h.ServeHTTP w r σ).1.codes = [400] ∧
      (h.ServeHTTP w r σ).1.body = w.body ++ [http.Payload.text ("save: " ++ err.Error ++ "\n")] ∧
      (h.ServeHTTP w r σ).2.2.puts = σ.puts) ∧
    (∀ tmp cl σ1 hash size body tmp1 err σ2,
      modules.handler.createTempFile σ = (.ok (tmp, cl), σ1) →
      modules.handler.hashAndSave r.Body tmp = (.ok (hash, size), body, tmp1) →
      h.s3Uploader.UploadFile tmp1 σ1 = (.error err, σ2) →
      (h.ServeHTTP w r σ).1.codes = [502] ∧
      (h.ServeHTTP w r σ).1.body = w.body ++ [http.Payload.text ("s3: " ++ err.Error ++ "\n")]) ∧
    (∀ tmp cl σ1 hash size body tmp1 location σ2,
      modules.handler.createTempFile σ = (.ok (tmp, cl), σ1) →
      modules.handler.hashAndSave r.Body tmp = (.ok (hash, size), body, tmp1) →
      h.s3Uploader.UploadFile tmp1 σ1 = (.ok location, σ2) →
      (h.ServeHTTP w r σ).1.codes = [200] ∧
      (h.ServeHTTP w r σ).1 = modules.handler.respondJSON w location hash size) ∧
    ((h.ServeHTTP w r σ).1.codes = [200] →
      ∃ tmp cl σ1 hash size body tmp1 location σ2,
        modules.handler.createTempFile σ = (.ok (tmp, cl), σ1) ∧
        modules.handler.hashAndSave r.Body tmp = (.ok (hash, size), body, tmp1) ∧
        h.s3Uploader.UploadFile tmp1 σ1 = (.ok location, σ2)) := by
  have p500 : ∀ err σ1, modules.handler.createTempFile σ = (.error err, σ1) →
      h.ServeHTTP w r σ = (http.Error w ("tmp file: " ++ err.Error) 500, r, σ1) :=
    fun err σ1 hc => modules.handler.ServeHTTP_tmpErr h w r σ σ1 err hm hc
  have hputs : ∀ err σ1, modules.handler.createTempFile σ = (.error err, σ1) →
      σ1.puts = σ.puts := by
    intro err σ1 hc
    rcases modules.handler.createTempFile_spec σ with ⟨err2, k, hc2⟩ | ⟨name, k, hn, hc2⟩
    · rw [hc2] at hc
      simp only [Prod.mk.injEq] at hc
      rw [← hc.2]
    · rw [hc2] at hc; simp at hc
  have hputs2 : ∀ tmp cl σ1, modules.handler.createTempFile σ = (.ok (tmp, cl), σ1) →
      ∀ ρ, (cl ρ).puts = ρ.puts ∧ σ1.puts = σ.puts := by
    intro tmp cl σ1 hc ρ
    rcases modules.handler.createTempFile_spec σ with ⟨err2, k, hc2⟩ | ⟨name, k, hn, hc2⟩
    · rw [hc2] at hc; simp at hc
    · rw [hc2] at hc
      simp only [Prod.mk.injEq, Except.ok.injEq] at hc
      obtain ⟨⟨_, hcl⟩, hσ⟩ := hc
      rw [← hcl, ← hσ]
      refine ⟨?_, rfl⟩
      simp only [os.Remove]
      split_ifs <;> rfl
  refine ⟨handler.ServeHTTP_eq _ w r σ, ?_, ?_, ?_, ?_, ?_, ?_⟩
  · rcases modules.handler.ServeHTTP_cases h w r σ with ⟨hn, _⟩ | ⟨_, _, _, _, e⟩ |
      ⟨_, _, _, _, _, _, _, _, _, _, e⟩ | ⟨_, _, _, _, _, _, _, _, _, _, _, e⟩ |
      ⟨_, _, _, _, _, _, _, _, _, _, _, e⟩
    · exact absurd hm hn
    · rw [e, http.Error_codes, hw]; rfl
    · rw [e, http.Error_codes, hw]; rfl
    · rw [e, http.Error_codes, hw]; rfl
    · rw [e, modules.handler.respondJSON_codes _ _ _ _ hw]; rfl
  · intro err σ1 hc
    rw [p500 err σ1 hc]
    refine ⟨?_, ?_, rfl, hputs err σ1 hc⟩
    · rw [http.Error_codes, hw]; rfl
    · rw [http.Error_body]
  · intro tmp cl σ1 err body tmp1 hc hs
    rw [modules.handler.ServeHTTP_saveErr h w r σ σ1 tmp tmp1 cl err body hm hc hs]
    refine ⟨?_, ?_, ?_⟩
    · rw [http.Error_codes, hw]; rfl
    · rw [http.Error_body]
    · have := hputs2 tmp cl σ1 hc σ1
      simp only
      rw [this.1, this.2]
  · intro tmp cl σ1 hash size body tmp1 err σ2 hc hs hu
    rw [modules.handler.ServeHTTP_s3Err h w r σ σ1 σ2 tmp tmp1 cl err body hash size hm hc hs hu]
    refine ⟨?_, ?_⟩
    · rw [http.Error_codes, hw]; rfl
    · rw [http.Error_body]
  · intro tmp cl σ1 hash size body tmp1 location σ2 hc hs hu
    rw [modules.handler.ServeHTTP_ok h w r σ σ1 σ2 tmp tmp1 cl location body hash size hm hc hs hu]
    exact ⟨modules.handler.respondJSON_codes _ _ _ _ hw, rfl⟩
  · intro h200
    rcases hc : modules.handler.createTempFile σ with ⟨res, σ1⟩
    cases res with
    | error err =>
      rw [p500 err σ1 hc, http.Error_codes, hw] at h200
      exact absurd h200 (by decide)
    | ok v =>
      obtain ⟨tmp, cl⟩ := v
      rcases hs : modules.handler.hashAndSave r.Body tmp with ⟨res2, body, tmp1⟩
      cases res2 with
      | error err =>
        rw [modules.handler.ServeHTTP_saveErr h w r σ σ1 tmp tmp1 cl err body hm hc hs,
          http.Error_codes, hw] at h200
        exact absurd h200 (by decide)
      | ok v2 =>
        obtain ⟨hash, size⟩ := v2
        rcases hu : h.s3Uploader.UploadFile tmp1 σ1 with ⟨res3, σ2⟩
        cases res3 with
        | error err =>
          rw [modules.handler.ServeHTTP_s3Err h w r σ σ1 σ2 tmp tmp1 cl err body hash size
            hm hc hs hu, http.Error_codes, hw] at h200
          exact absurd h200 (by decide)
        | ok location =>
          exact ⟨tmp, cl, σ1, hash, size, body, tmp1, location, σ2, rfl, hs, hu⟩

set_option maxRecDepth 100000 in
/-- C5, worked instance: the POST of `hello` in the quiet world is answered with
200, and with 502 when the store refuses the object. -/
theorem C5_witness_hello :
    helloPost.Method = "POST" ∧ freshWriter.codes = [] ∧
      (docsHandler.ServeHTTP freshWriter helloPost quietWorld).1.codes = [200] ∧
      (docsHandler.ServeHTTP freshWriter helloPost offlineWorld).1.codes = [502] :=
  ⟨rfl, rfl,
    ((C5_stage_order_and_status docsHandler freshWriter helloPost quietWorld rfl rfl).2.2.2.2.2.1
      _ _ _ _ _ _ _ _ _ rfl rfl rfl).1,
    ((C5_stage_order_and_status docsHandler freshWriter helloPost offlineWorld rfl rfl).2.2.2.2.1
      _ _ _ _ _ _ _ _ _ rfl rfl rfl).1⟩

/-- C6: for every request and every outcome of its stages, the files of the
temp directory when `ServeHTTP` (in both packages) returns are the files before
the call; and whenever `createTempFile` succeeded, the file it created was in
the directory after the creation and is not there on return. -/
theorem C6_temp_directory_restored (h : modules.handler.UploadHandler)
    (h0 : handler.UploadHandler) (w : http.ResponseWriter) (r : http.Request) (σ : World) :
    (h.ServeHTTP w r σ).2.2.files = σ.files ∧
      (h0.ServeHTTP w r σ).2.2.files = σ.files ∧
      (∀ tmp cl σ1, modules.handler.createTempFile σ = (.ok (tmp, cl), σ1) →
        tmp.name ∈ σ1.files ∧ tmp.name ∉ σ.files ∧
        tmp.name ∉ (h.ServeHTTP w r σ).2.2.files ∧
        tmp.name ∉ (h0.ServeHTTP w r σ).2.2.files) := by
  have key : ∀ g : modules.handler.UploadHandler, (g.ServeHTTP w r σ).2.2.files = σ.files := by
    intro g
    rcases modules.handler.ServeHTTP_cases g w r σ with ⟨_, e⟩ | ⟨_, _, _, _, e⟩ |
      ⟨_, _, _, _, _, _, _, _, _, _, e⟩ | ⟨_, _, _, _, _, _, _, _, _, _, _, e⟩ |
      ⟨_, _, _, _, _, _, _, _, _, _, _, e⟩ <;> rw [e]
  have key0 : (h0.ServeHTTP w r σ).2.2.files = σ.files := by
    rw [handler.ServeHTTP_eq]; exact key _
  refine ⟨key h, key0, ?_⟩
  intro tmp cl σ1 hc
  rcases modules.handler.createTempFile_spec σ with ⟨err, k, hc2⟩ | ⟨name, k, hn, hc2⟩
  · rw [hc2] at hc; simp at hc
  · rw [hc2] at hc
    simp only [Prod.mk.injEq, Except.ok.injEq] at hc
    obtain ⟨⟨ht, _⟩, hσ⟩ := hc
    rw [← ht, ← hσ, key h, key0]
    exact ⟨by simp, hn, hn, hn⟩

set_option maxRecDepth 100000 in
/-- C6, worked instance: when the store refuses the object after a successful
spool the answer is 502 and the temporary file `/tmp/upload-0`, present after
its creation, is gone on return. -/
theorem C6_witness_upload_failure :
    (docsHandler.ServeHTTP freshWriter helloPost offlineWorld).1.codes = [502] ∧
      (docsHandler.ServeHTTP freshWriter helloPost offlineWorld).2.2.files = offlineWorld.files ∧
      "/tmp/upload-0" ∉ (docsHandler.ServeHTTP freshWriter helloPost offlineWorld).2.2.files :=
  ⟨rfl,
    (C6_temp_directory_restored docsHandler docsHandlerOld freshWriter helloPost offlineWorld).1,
    ((C6_temp_directory_restored docsHandler docsHandlerOld freshWriter helloPost
      offlineWorld).2.2 emptyTemp _ _ rfl).2.2.1⟩

/-- C7, counterexample: for a location that ends in `/` the `file_id` emitted
is the segment before that slash, while the text after the final `/` is empty. -/
theorem C7_counterexample_trailing_slash :
    (modules.handler.respondJSON freshWriter "https://docs.s3.amazonaws.com/raw/" "" 0).body =
        [http.Payload.json [("file_id", json.Value.str "raw"), ("size", json.Value.num 0),
          ("sha256", json.Value.str ""),
          ("location", json.Value.str "https://docs.s3.amazonaws.com/raw/")]] ∧
      textAfterFinalSlash "https://docs.s3.amazonaws.com/raw/" = "" ∧
      filepath.Base "https://docs.s3.amazonaws.com/raw/" ≠
        textAfterFinalSlash "https://docs.s3.amazonaws.com/raw/" := by
  decide

/-- C7, amended: for every location, digest and size, `respondJSON` (in both
packages) sets `Content-Type` to `application/json` and emits a JSON object
with exactly the four keys `file_id`, `size`, `sha256` and `location`, where
`size`, `sha256` and `location` are the values given and `file_id` is
`filepath.Base(location)`; that is the text after the final `/` of the
location whenever the location is non-empty and does not end in `/`. -/
theorem C7_respondJSON_fields (w : http.ResponseWriter) (location hash : String) (size : Int) :
    handler.respondJSON w location hash size = modules.handler.respondJSON w location hash size ∧
    http.Header.Get (modules.handler.respondJSON w location hash size).header "Content-Type" =
      "application/json" ∧
    (∃ o : json.Object,
      (modules.handler.respondJSON w location hash size).body = w.body ++ [http.Payload.json o] ∧
      o.map Prod.fst = ["file_id", "size", "sha256", "location"] ∧
      o.get? "size" = some (json.Value.num size) ∧
      o.get? "sha256" = some (json.Value.str hash) ∧
      o.get? "location" = some (json.Value.str location) ∧
      o.get? "file_id" = some (json.Value.str (filepath.Base location))) ∧
    (∀ t c, location.data = t ++ [c] → c ≠ '/' →
      filepath.Base location = textAfterFinalSlash location) := by
  refine ⟨rfl, ?_, ⟨_, modules.handler.respondJSON_body w location hash size, rfl, rfl, rfl,
    rfl, rfl⟩, fun t c ht hc => filepath.Base_eq_textAfterFinalSlash location t c ht hc⟩
  have hh : (modules.handler.respondJSON w location hash size).header =
      http.Header.Set w.header "Content-Type" "application/json" := by
    simp only [modules.handler.respondJSON, http.ResponseWriter.Write]
    split_ifs <;> rfl
  rw [hh, http.Header_Get_Set]

/-- C7, worked instance: for an S3 object URL the `file_id` is the text after
the final `/`. -/
theorem C7_witness_object_url :
    filepath.Base "https://docs.s3.amazonaws.com/raw/123e4567-e89b-42d3-a456-426614174000" =
      "123e4567-e89b-42d3-a456-426614174000" :=
  ((C7_respondJSON_fields freshWriter
    "https://docs.s3.amazonaws.com/raw/123e4567-e89b-42d3-a456-426614174000" "" 0).2.2.2
    "https://docs.s3.amazonaws.com/raw/123e4567-e89b-42d3-a456-42661417400".data '0' rfl
    (by decide)).trans (by decide)

/-- C8: for every upload whose generated identifier `id` is a canonical UUID
string, the uploader (`UploadFile`, and `uploadToS3` of package `handler`) sends
to the store exactly one object, in the configured bucket, under the key `raw/`
followed by `id` and nothing else; and whatever the request (method, path,
headers, body), every call that `ServeHTTP` adds to the store's call list has
that bucket and that key. -/
theorem C8_object_key (u : modules.s3.Uploader) (file : os.File) (σ : World)
    (hid : isCanonicalUUID (σ.uuid σ.uuidPos) = true) :
    (u.UploadFile file σ).2.puts =
        σ.puts ++ [⟨u.bucket, "raw/" ++ σ.uuid σ.uuidPos, file.data.drop file.pos⟩] ∧
      ((handler.UploadHandler.mk u.bucket).uploadToS3 file σ).2.puts =
        σ.puts ++ [⟨u.bucket, "raw/" ++ σ.uuid σ.uuidPos, file.data.drop file.pos⟩] ∧
      (∀ (w : http.ResponseWriter) (r : http.Request),
        ((modules.handler.UploadHandler.mk u).ServeHTTP w r σ).2.2.puts = σ.puts ∨
        ∃ body, ((modules.handler.UploadHandler.mk u).ServeHTTP w r σ).2.2.puts =
          σ.puts ++ [⟨u.bucket, "raw/" ++ σ.uuid σ.uuidPos, body⟩]) := by
  obtain ⟨hne, hch⟩ := isCanonicalUUID_chars _ hid
  have hkey := filepath.Join_raw (σ.uuid σ.uuidPos) hne hch
  have hu := modules.s3.UploadFile_eq u file σ
  rw [hkey] at hu
  refine ⟨by rw [hu], by rw [handler.uploadToS3_eq, hu], ?_⟩
  intro w r
  rcases modules.handler.ServeHTTP_puts ⟨u⟩ w r σ with hp | hp
  · exact Or.inl hp
  · rw [hkey] at hp
    exact Or.inr ⟨_, hp⟩

/-- C8, worked instance: the first upload in the quiet world goes to bucket
`docs` under `raw/` followed by the first identifier. -/
theorem C8_witness_first_upload :
    isCanonicalUUID (quietWorld.uuid quietWorld.uuidPos) = true ∧
      ((modules.s3.NewUploader "docs").UploadFile emptyTemp quietWorld).2.puts =
        [⟨"docs", "raw/123e4567-e89b-42d3-a456-426614174000", []⟩] :=
  ⟨by decide, (C8_object_key (modules.s3.NewUploader "docs") emptyTemp quietWorld (by decide)).1⟩

/-- C9: two POSTs with the same body, served one after the other and both
answered with 200 (each on a fresh writer): when the two identifiers the
generator hands out are canonical UUID strings and differ, and the store never
reports the same location for two different keys of one bucket, the two objects
are sent under different keys and the two responses carry different locations,
with the same size and the same digest. -/
theorem C9_same_content_different_locations (h : modules.handler.UploadHandler)
    (w1 w2 : http.ResponseWriter) (r1 r2 : http.Request) (σ : World)
    (hw1 : w1.codes = []) (hw2 : w2.codes = [])
    (hB : r1.Body.rest = r2.Body.rest)
    (hid1 : isCanonicalUUID (σ.uuid σ.uuidPos) = true)
    (hid2 : isCanonicalUUID (σ.uuid (σ.uuidPos + 1)) = true)
    (hdist : σ.uuid σ.uuidPos ≠ σ.uuid (σ.uuidPos + 1))
    (hinj : ∀ bucket key1 key2 body1 body2 location,
      σ.store ⟨bucket, key1, body1⟩ = .ok location →
      σ.store ⟨bucket, key2, body2⟩ = .ok location → key1 = key2)
    (hok1 : (h.ServeHTTP w1 r1 σ).1.codes = [200])
    (hok2 : (h.ServeHTTP w2 r2 (h.ServeHTTP w1 r1 σ).2.2).1.codes = [200]) :
    ∃ (location1 location2 digest : String) (size : Int),
      (h.ServeHTTP w1 r1 σ).1.body = w1.body ++ [http.Payload.json [
        ("file_id", json.Value.str (filepath.Base location1)),
        ("size", json.Value.num size),
        ("sha256", json.Value.str digest),
        ("location", json.Value.str location1)]] ∧
      (h.ServeHTTP w2 r2 (h.ServeHTTP w1 r1 σ).2.2).1.body = w2.body ++ [http.Payload.json [
        ("file_id", json.Value.str (filepath.Base location2)),
        ("size", json.Value.num size),
        ("sha256", json.Value.str digest),
        ("location", json.Value.str location2)]] ∧
      location1 ≠ location2 ∧
      (h.ServeHTTP w2 r2 (h.ServeHTTP w1 r1 σ).2.2).2.2.puts =
        σ.puts ++ [⟨h.s3Uploader.bucket, "raw/" ++ σ.uuid σ.uuidPos, r1.Body.rest.take (2 ^ 30)⟩,
          ⟨h.s3Uploader.bucket, "raw/" ++ σ.uuid (σ.uuidPos + 1),
            r1.Body.rest.take (2 ^ 30)⟩] ∧
      "raw/" ++ σ.uuid σ.uuidPos ≠ "raw/" ++ σ.uuid (σ.uuidPos + 1) := by
  obtain ⟨hne1, hch1⟩ := isCanonicalUUID_chars _ hid1
  obtain ⟨hne2, hch2⟩ := isCanonicalUUID_chars _ hid2
  have hkey1 := filepath.Join_raw _ hne1 hch1
  have hkey2 := filepath.Join_raw _ hne2 hch2
  have hkeys : "raw/" ++ σ.uuid σ.uuidPos ≠ "raw/" ++ σ.uuid (σ.uuidPos + 1) :=
    fun e => hdist (String_append_left_cancel _ _ _ e)
  obtain ⟨k1, body1, location1, hst1, e1⟩ := modules.handler.ServeHTTP_of_200 h w1 r1 σ hw1 hok1
  rw [e1] at hok2 ⊢
  obtain ⟨k2, body2, location2, hst2, e2⟩ := modules.handler.ServeHTTP_of_200 h w2 r2 _ hw2 hok2
  rw [e2]
  simp only [hkey1, hkey2, ← hB] at hst1 hst2 ⊢
  refine ⟨location1, location2, _, _, modules.handler.respondJSON_body _ _ _ _,
    modules.handler.respondJSON_body _ _ _ _, ?_, ?_, hkeys⟩
  · intro hl
    rw [← hl] at hst2
    exact hkeys (hinj _ _ _ _ _ _ hst1 hst2)
  · simp

set_option maxRecDepth 100000 in
/-- C9, worked instance: `hello` posted twice in the quiet world is stored under
two keys and answered with two locations, with one size and one digest. -/
theorem C9_witness_hello_twice :
    quietWorld.uuid quietWorld.uuidPos ≠ quietWorld.uuid (quietWorld.uuidPos + 1) ∧
      (docsHandler.ServeHTTP freshWriter helloPost quietWorld).1.codes = [200] ∧
      (docsHandler.ServeHTTP freshWriter helloPost
        (docsHandler.ServeHTTP freshWriter helloPost quietWorld).2.2).1.codes = [200] ∧
      ∃ (location1 location2 digest : String) (size : Int),
        (docsHandler.ServeHTTP freshWriter helloPost quietWorld).1.body =
          freshWriter.body ++ [http.Payload.json [
            ("file_id", json.Value.str (filepath.Base location1)),
            ("size", json.Value.num size),
            ("sha256", json.Value.str digest),
            ("location", json.Value.str location1)]] ∧
        (docsHandler.ServeHTTP freshWriter helloPost
          (docsHandler.ServeHTTP freshWriter helloPost quietWorld).2.2).1.body =
          freshWriter.body ++ [http.Payload.json [
            ("file_id", json.Value.str (filepath.Base location2)),
            ("size", json.Value.num size),
            ("sha256", json.Value.str digest),
            ("location", json.Value.str location2)]] ∧
        location1 ≠ location2 := by
  have hd : quietWorld.uuid quietWorld.uuidPos ≠ quietWorld.uuid (quietWorld.uuidPos + 1) := by
    decide
  obtain ⟨l1, l2, d, s, a, b, c, _⟩ := C9_same_content_different_locations docsHandler
    freshWriter freshWriter helloPost helloPost quietWorld rfl rfl rfl (by decide) (by decide) hd
    quietWorld_store_injective helloPost_status helloPost_second_status
  exact ⟨hd, helloPost_status, helloPost_second_status, l1, l2, d, s, a, b, c⟩

/-- C10: for every request answered with status 200 (on a fresh writer) whose
generated identifier `id` is a canonical UUID string: the store was given the
key `raw/` followed by `id` and reported a location, the response is one JSON
object whose `location` field is that location, and whenever that location ends
in `/` followed by the key, the `file_id` field is `id`. -/
theorem C10_file_id_is_generated_id (h : modules.handler.UploadHandler)
    (w : http.ResponseWriter) (r : http.Request) (σ : World) (hw : w.codes = [])
    (hid : isCanonicalUUID (σ.uuid σ.uuidPos) = true)
    (hok : (h.ServeHTTP w r σ).1.codes = [200]) :
    (∃ (location : String) (o : json.Object),
        σ.store ⟨h.s3Uploader.bucket, "raw/" ++ σ.uuid σ.uuidPos, r.Body.rest.take (2 ^ 30)⟩ =
          .ok location ∧
        (h.ServeHTTP w r σ).1.body = w.body ++ [http.Payload.json o] ∧
        o.get? "location" = some (json.Value.str location) ∧
        ((∃ pre, location = pre ++ "/" ++ ("raw/" ++ σ.uuid σ.uuidPos)) →
          o.get? "file_id" = some (json.Value.str (σ.uuid σ.uuidPos)))) ∧
      (handler.UploadHandler.mk h.s3Uploader.bucket).ServeHTTP w r σ = h.ServeHTTP w r σ := by
  obtain ⟨hne, hch⟩ := isCanonicalUUID_chars _ hid
  have hkey := filepath.Join_raw (σ.uuid σ.uuidPos) hne hch
  obtain ⟨k, body, location, hst, e⟩ := modules.handler.ServeHTTP_of_200 h w r σ hw hok
  rw [hkey] at hst
  refine ⟨⟨location, [
      ("file_id", json.Value.str (filepath.Base location)),
      ("size", json.Value.num ((r.Body.rest.take (2 ^ 30)).length : Int)),
      ("sha256", json.Value.str (hex.EncodeToString (sha256.Sum256 (r.Body.rest.take (2 ^ 30))))),
      ("location", json.Value.str location)], hst, ?_, rfl, ?_⟩, handler.ServeHTTP_eq _ w r σ⟩
  · rw [e]
    exact modules.handler.respondJSON_body _ _ _ _
  · rintro ⟨pre, hpre⟩
    have hbase : filepath.Base location = σ.uuid σ.uuidPos := by
      rw [hpre]; exact Base_of_raw_key pre _ hid
    rw [← hbase]
    rfl

set_option maxRecDepth 100000 in
/-- C10, worked instance: the POST of `hello` in the quiet world gets the first
identifier of the generator as its `file_id`. -/
theorem C10_witness_hello :
    isCanonicalUUID (quietWorld.uuid quietWorld.uuidPos) = true ∧
      (docsHandler.ServeHTTP freshWriter helloPost quietWorld).1.codes = [200] ∧
      ∃ o : json.Object,
        (docsHandler.ServeHTTP freshWriter helloPost quietWorld).1.body =
          freshWriter.body ++ [http.Payload.json o] ∧
        o.get? "file_id" = some (json.Value.str "123e4567-e89b-42d3-a456-426614174000") := by
  obtain ⟨⟨location, o, hst, hb, _, hf⟩, _⟩ := C10_file_id_is_generated_id docsHandler
    freshWriter helloPost quietWorld rfl (by decide) helloPost_status
  exact ⟨by decide, helloPost_status, o, hb, hf (quietWorld_location _ _ hst)⟩
